import Mathlib

/-!
# cstring-lite: `tuli::cstring` and `tuli::cstring_view`

A shallow embedding of `include/tuli/cstring.hpp` and
`include/tuli/cstring_view.hpp`, together with the parts of the C++ standard
library they are written in terms of (`std::char_traits<char>::length`,
`std::string_view`, `std::string`, `std::unique_ptr`), followed by the
properties proved about them.

Modelling conventions

* A pointer is `Option Nat`: `none` is `nullptr`, `some a` is the address `a`.
* Memory is a finite list of bytes; the byte at address `a` is `mem[a]?`.
  Reading outside the list is undefined behaviour.
* A constructor that can leave defined behaviour returns `Except Fault _`:
  `Fault.undefined` for undefined behaviour of the standard library,
  `Fault.assertion` for a failed `assert`.
* Invoking a deleter is an observable event; the events are collected, in
  order, in a release log of pairs (deleter value, released address).
* Object identity (`this != &other`) is the index of the object in a `World`.
* Neither class writes to a buffer, so the memory is the same throughout a run.
-/

namespace tuli

/-! ## Memory, pointers and faults -/

/-- A `char*` or `const char*` value: `none` is the null pointer. -/
abbrev Ptr := Option Nat

/-- Byte-addressed memory. -/
abbrev Mem := List Nat

/-- The ways an operation can leave defined behaviour. -/
inductive Fault where
  | undefined
  | assertion
deriving DecidableEq

/-- The byte stored at address `a`, when `a` is inside the memory. -/
def load (mem : Mem) (a : Nat) : Option Nat := mem[a]?

/-- Walk a byte sequence up to its first zero byte and count the bytes passed;
`none` when the sequence ends before a zero byte is met. -/
def scan : List Nat → Option Nat
  | [] => none
  | b :: bs => if b = 0 then some 0 else (scan bs).map (· + 1)

/-- The call `std::char_traits<char>::length(s)`: the number of bytes before the first
zero byte starting at `s`. A null `s` or a buffer without terminator is
undefined behaviour. -/
def char_traits_length (mem : Mem) (s : Ptr) : Except Fault Nat :=
  match s with
  | none => .error .undefined
  | some a =>
    match scan (mem.drop a) with
    | none => .error .undefined
    | some n => .ok n

/-! ## `std::string_view` and `std::string` -/

/-- The pair (data pointer, size) of a `std::string_view`. -/
structure string_view where
  data : Ptr
  size : Nat
deriving DecidableEq

namespace string_view

/-- The constructor `std::string_view()`. -/
def default : string_view := ⟨none, 0⟩

/-- The constructor `std::string_view(const char* s)`: size is `traits::length(s)`. -/
def of_c_str (mem : Mem) (s : Ptr) : Except Fault string_view :=
  match char_traits_length mem s with
  | .error f => .error f
  | .ok n => .ok ⟨s, n⟩

/-- The constructor `std::string_view(const char* s, size_t len)`. -/
def of_ptr_len (s : Ptr) (len : Nat) : string_view := ⟨s, len⟩

/-- A string literal used as a `std::string_view`: the literal is an array holding
`chars` followed by a zero byte, placed at address `addr`, and the size is
found by scanning that array. -/
def of_literal (addr : Nat) (chars : List Nat) : string_view :=
  ⟨some addr, (scan (chars ++ [0])).getD 0⟩

def length (sv : string_view) : Nat := sv.size

def empty (sv : string_view) : Bool := sv.size == 0

/-- The bytes of the range `[data, data + size)`. -/
def bytes (mem : Mem) (sv : string_view) : List Nat :=
  match sv.data with
  | none => []
  | some a => (mem.drop a).take sv.size

/-- The comparison `operator==` of two `std::string_view`s: same size and same bytes. -/
def eq (mem : Mem) (x y : string_view) : Bool :=
  x.size == y.size && x.bytes mem == y.bytes mem

end string_view

/-- A `std::string` object, seen from outside: the address of its buffer and its
size. -/
structure string where
  data : Nat
  size : Nat
deriving DecidableEq

/-- The guarantee of `std::string`: the buffer holds `size` bytes followed by a
zero byte. -/
def string.valid (mem : Mem) (str : string) : Prop :=
  load mem (str.data + str.size) = some 0 ∧ str.data + str.size < mem.length

instance (mem : Mem) (str : string) : Decidable (str.valid mem) := by
  unfold string.valid; infer_instance

/-- The conversion `std::string::operator std::string_view()`. -/
def string.to_string_view (str : string) : string_view := ⟨some str.data, str.size⟩

/-! ## `std::unique_ptr<char, Deleter>` -/

/-- The release log: one entry per deleter invocation. -/
abbrev Log (δ : Type) := List (δ × Nat)

/-- Calling the deleter `d` on the buffer at `a`. -/
def invoke {δ : Type} (d : δ) (a : Nat) (log : Log δ) : Log δ := log ++ [(d, a)]

/-- The stored pointer and the stored deleter of a `std::unique_ptr<char, Deleter>`. -/
structure unique_ptr (δ : Type) where
  ptr : Ptr
  deleter : δ
deriving DecidableEq

namespace unique_ptr
variable {δ : Type}

def get (u : unique_ptr δ) : Ptr := u.ptr

/-- The conversion `explicit operator bool()`. -/
def to_bool (u : unique_ptr δ) : Bool := u.ptr.isSome

/-- The call `release()`: gives up the pointer, the stored pointer becomes null. -/
def release (u : unique_ptr δ) : Ptr × unique_ptr δ := (u.ptr, { u with ptr := none })

/-- The call `reset(p)`: stores `p`, then calls the deleter on the old pointer if it
was not null. -/
def reset (u : unique_ptr δ) (p : Ptr) (log : Log δ) : unique_ptr δ × Log δ :=
  let old := u.ptr
  let u1 := { u with ptr := p }
  match old with
  | some a => (u1, invoke u1.deleter a log)
  | none => (u1, log)

/-- The move constructor `unique_ptr(unique_ptr&& u)`: takes `u.release()` and a deleter
built from the deleter of `u`. Returns the new object and `u` afterwards. -/
def move_ctor (u : unique_ptr δ) : unique_ptr δ × unique_ptr δ :=
  let (p, u1) := u.release
  (⟨p, u1.deleter⟩, u1)

/-- The move assignment `operator=(unique_ptr&& u)`: `reset(u.release())`, then the deleter
is assigned from the deleter of `u`. Returns `*this`, `u` and the log afterwards. -/
def move_assign (self u : unique_ptr δ) (log : Log δ) :
    unique_ptr δ × unique_ptr δ × Log δ :=
  let (p, u1) := u.release
  let (self1, log1) := self.reset p log
  ({ self1 with deleter := u1.deleter }, u1, log1)

/-- The destructor `~unique_ptr()`: calls the deleter if the stored pointer is not null. -/
def dtor (u : unique_ptr δ) (log : Log δ) : Log δ :=
  match u.ptr with
  | some a => invoke u.deleter a log
  | none => log

end unique_ptr

/-! ## `tuli::cstring` -/

/-- The stateless deleter `tuli::default_delete`, which calls `std::free`. -/
inductive default_delete where
  | free
deriving DecidableEq

instance : Inhabited default_delete := ⟨default_delete.free⟩

/-- The members of `tuli::cstring<Deleter>`. -/
structure cstring (δ : Type) where
  m_str : unique_ptr δ
  m_length : Nat
deriving DecidableEq

namespace cstring
variable {δ : Type}

/-- The constructor `cstring(owned_t, char* s, D&& d)`. -/
def ctor_deleter (mem : Mem) (s : Ptr) (d : δ) : Except Fault (cstring δ) :=
  let m_str : unique_ptr δ := ⟨s, d⟩
  if m_str.to_bool then
    match char_traits_length mem m_str.get with
    | .error f => .error f
    | .ok n => .ok ⟨m_str, n⟩
  else .ok ⟨m_str, 0⟩

/-- The constructor `cstring(owned_t, char* s)`: the deleter is value-initialised. -/
def ctor [Inhabited δ] (mem : Mem) (s : Ptr) : Except Fault (cstring δ) :=
  let m_str : unique_ptr δ := ⟨s, Inhabited.default⟩
  if m_str.to_bool then
    match char_traits_length mem m_str.get with
    | .error f => .error f
    | .ok n => .ok ⟨m_str, n⟩
  else .ok ⟨m_str, 0⟩

/-- The move constructor `cstring(cstring&& other)`. Returns the new object and `other`
afterwards. -/
def move_ctor (other : cstring δ) : cstring δ × cstring δ :=
  let (m_str, other_str) := other.m_str.move_ctor
  -- std::exchange(other.m_length, 0)
  let m_length := other.m_length
  (⟨m_str, m_length⟩, ⟨other_str, 0⟩)

/-- The body of `operator=(cstring&& other)` under the guard `this != &other`.
Returns `*this`, `other` and the log afterwards. -/
def move_assign_body (self other : cstring δ) (log : Log δ) :
    cstring δ × cstring δ × Log δ :=
  let (m_str, other_str, log1) := self.m_str.move_assign other.m_str log
  let m_length := other.m_length
  (⟨m_str, m_length⟩, ⟨other_str, 0⟩, log1)

/-- The implicit destructor: destroys the member `m_str`. -/
def dtor (c : cstring δ) (log : Log δ) : Log δ := c.m_str.dtor log

def length (c : cstring δ) : Nat := c.m_length

def is_empty (c : cstring δ) : Bool := c.m_length == 0

def is_null (c : cstring δ) : Bool := !c.m_str.to_bool

def c_str (c : cstring δ) : Ptr := c.m_str.get

/-- The conversion `operator std::string_view()`. -/
def to_string_view (c : cstring δ) : string_view :=
  string_view.of_ptr_len c.m_str.get c.m_length

end cstring

/-! ## `tuli::cstring_view` -/

/-- The single member of `tuli::cstring_view`. -/
structure cstring_view where
  m_sv : string_view
deriving DecidableEq

namespace cstring_view

/-- The constructor `cstring_view()`, which initialises `m_sv{""}`; `lit` is the address
of that string literal. -/
def default (lit : Nat) : cstring_view := ⟨string_view.of_literal lit []⟩

/-- The constructor `cstring_view(const char* s)`: first `m_sv{s}`, then
`assert(m_sv.data() != nullptr)`. -/
def of_c_str (mem : Mem) (s : Ptr) : Except Fault cstring_view :=
  match string_view.of_c_str mem s with
  | .error f => .error f
  | .ok m_sv => if m_sv.data ≠ none then .ok ⟨m_sv⟩ else .error .assertion

/-- The constructor `cstring_view(null_terminated_t, std::string_view sv)`, which
initialises `m_sv{sv.data() ? sv : ""}`; `lit` is the address of that string
literal. -/
def of_null_terminated (lit : Nat) (sv : string_view) : cstring_view :=
  ⟨if sv.data.isSome then sv else string_view.of_literal lit []⟩

/-- The constructor `cstring_view(const std::string& str)`, which initialises
`m_sv{str}`. -/
def of_string (str : string) : cstring_view := ⟨str.to_string_view⟩

def length (v : cstring_view) : Nat := v.m_sv.length

def is_empty (v : cstring_view) : Bool := v.m_sv.empty

def c_str (v : cstring_view) : Ptr := v.m_sv.data

/-- The conversion `operator std::string_view()`. -/
def to_string_view (v : cstring_view) : string_view := v.m_sv

/-- The literal operator `operator""_csv(const char* s, std::size_t len)`. -/
def operator_csv (lit : Nat) (s : Ptr) (len : Nat) : cstring_view :=
  of_null_terminated lit (string_view.of_ptr_len s len)

/-- The comparison `v == w` of a view with a bounded view: `v` converts to
`std::string_view` and the two are compared. -/
def eq (mem : Mem) (v : cstring_view) (w : string_view) : Bool :=
  string_view.eq mem v.to_string_view w

end cstring_view

/-! ## Objects with identity: a world of `tuli::cstring` instances -/

/-- All `tuli::cstring<Deleter>` objects created so far, indexed in order of
creation (`none` once the lifetime of the object has ended), and the release
log. -/
structure World (δ : Type) where
  objs : List (Option (cstring δ))
  log : Log δ
deriving DecidableEq

namespace World
variable {δ : Type}

def empty : World δ := ⟨[], []⟩

/-- The statement `cstring<Deleter> x{owned, s, d};`. The new object gets the next index. -/
def construct (mem : Mem) (w : World δ) (s : Ptr) (d : δ) : Option (World δ) :=
  match cstring.ctor_deleter mem s d with
  | .ok c => some { w with objs := w.objs ++ [some c] }
  | .error _ => none

/-- The statement `cstring<Deleter> x{std::move(other)};` for the live object `other`. -/
def move_construct (w : World δ) (other : Nat) : Option (World δ) :=
  match w.objs[other]? with
  | some (some y) =>
    let (x, y1) := y.move_ctor
    some { w with objs := w.objs.set other (some y1) ++ [some x] }
  | _ => none

/-- The statement `self = std::move(other);` for live objects: `operator=(cstring&& other)`
with its guard `this != &other`. -/
def move_assign (w : World δ) (self other : Nat) : Option (World δ) :=
  match w.objs[self]?, w.objs[other]? with
  | some (some x), some (some y) =>
    if self ≠ other then
      let (x1, y1, log1) := cstring.move_assign_body x y w.log
      some { objs := (w.objs.set self (some x1)).set other (some y1), log := log1 }
    else some w
  | _, _ => none

/-- The end of the lifetime of the live object `i`: its destructor runs. -/
def destroy (w : World δ) (i : Nat) : Option (World δ) :=
  match w.objs[i]? with
  | some (some c) => some { objs := w.objs.set i none, log := c.dtor w.log }
  | _ => none

end World

/-- The statements of a client program that act on `tuli::cstring` objects. -/
inductive Op (δ : Type) where
  | construct (s : Ptr) (d : δ)
  | move_construct (other : Nat)
  | move_assign (self other : Nat)
  | destroy (i : Nat)
deriving DecidableEq

namespace World
variable {δ : Type}

/-- One statement; `none` when it uses an object outside its lifetime or adopts a
buffer without terminator. -/
def step (mem : Mem) (w : World δ) : Op δ → Option (World δ)
  | .construct s d => w.construct mem s d
  | .move_construct other => w.move_construct other
  | .move_assign self other => w.move_assign self other
  | .destroy i => w.destroy i

/-- A sequence of statements, from left to right. -/
def run (mem : Mem) (w : World δ) : List (Op δ) → Option (World δ)
  | [] => some w
  | op :: ops => (step mem w op).bind fun w1 => run mem w1 ops

/-- How many times a deleter has been called on the buffer at `a`. -/
def released (w : World δ) (a : Nat) : Nat := (w.log.map Prod.snd).count a

/-- Whether a slot is a live object that owns the buffer at `a`. -/
def holds (o : Option (cstring δ)) (a : Nat) : Bool :=
  match o with
  | some c => c.m_str.ptr == some a
  | none => false

/-- How many live objects own the buffer at `a`. -/
def held (w : World δ) (a : Nat) : Nat := w.objs.countP fun o => holds o a

end World

/-- Whether a statement adopts the buffer at `a`. -/
def Op.adopts {δ : Type} (a : Nat) : Op δ → Bool
  | .construct s _ => s == some a
  | _ => false

/-- How many statements of a program adopt the buffer at `a`. -/
def adoptions {δ : Type} (ops : List (Op δ)) (a : Nat) : Nat := ops.countP (Op.adopts a)

/-! ## Null-terminated buffers -/

/-- The buffer at `a` is null-terminated and its first zero byte is at offset `n`. -/
def terminated_at (mem : Mem) (a n : Nat) : Prop :=
  load mem (a + n) = some 0 ∧ ∀ i, i < n → load mem (a + i) ≠ some 0

instance (mem : Mem) (a n : Nat) : Decidable (terminated_at mem a n) := by
  unfold terminated_at; infer_instance

/-- The state invariant of an owning string: a null instance has length 0, and
an instance owning the buffer at `a` has as length the offset of the first
zero byte of that buffer. -/
def cstring.well_formed {δ : Type} (mem : Mem) (c : cstring δ) : Prop :=
  match c.m_str.ptr with
  | none => c.m_length = 0
  | some a => terminated_at mem a c.m_length

/-- Every live object of the world satisfies the state invariant. -/
def World.well_formed {δ : Type} (mem : Mem) (w : World δ) : Prop :=
  ∀ c, some c ∈ w.objs → c.well_formed mem

/-- The termination invariant of a view: `c_str()` is the address of a buffer
whose first zero byte is at offset `length()`. -/
def cstring_view.terminated (mem : Mem) (v : cstring_view) : Prop :=
  match v.c_str with
  | none => False
  | some a => terminated_at mem a v.length

instance (mem : Mem) (v : cstring_view) : Decidable (v.terminated mem) := by
  unfold cstring_view.terminated
  cases v.c_str <;> infer_instance

/-! ## `std::string` observers and bytes of a bounded view -/

/-- The call `str.length()` of a `std::string`. -/
def string.length (str : string) : Nat := str.size

/-- The call `str.empty()` of a `std::string`. -/
def string.empty (str : string) : Bool := str.size == 0

/-- The contents of a `std::string`: the `size` bytes of its buffer. -/
def string.contents (mem : Mem) (str : string) : List Nat :=
  (mem.drop str.data).take str.size

/-- The byte of a bounded view at offset `i`, when the view has a buffer and the
offset is inside the memory. -/
def string_view.byte_at (mem : Mem) (sv : string_view) (i : Nat) : Option Nat :=
  match sv.data with
  | none => none
  | some a => load mem (a + i)

/-- Equality of bounded contents in the words of the specification: the same
length and, offset by offset, the same bytes below that length. -/
def same_bounded_contents (mem : Mem) (x y : string_view) : Prop :=
  x.size = y.size ∧ ∀ i, i < x.size → x.byte_at mem i = y.byte_at mem i

/-! ## Copying views -/

namespace string_view

/-- The copy constructor of `std::string_view`, a trivially copyable type: both
members are copied. Returns the new object and the source afterwards. -/
def copy_ctor (other : string_view) : string_view × string_view :=
  (⟨other.data, other.size⟩, other)

/-- The move constructor of `std::string_view`: for a trivially copyable type a move is
a copy. -/
def move_ctor (other : string_view) : string_view × string_view :=
  (⟨other.data, other.size⟩, other)

end string_view

namespace cstring_view

/-- The implicit copy constructor of `cstring_view`: the member `m_sv` is
copy-constructed. Returns the new object and the source afterwards. -/
def copy_ctor (other : cstring_view) : cstring_view × cstring_view :=
  let (m_sv, other_sv) := other.m_sv.copy_ctor
  (⟨m_sv⟩, ⟨other_sv⟩)

/-- The implicit move constructor of `cstring_view`: the member `m_sv` is
move-constructed. Returns the new object and the source afterwards. -/
def move_ctor (other : cstring_view) : cstring_view × cstring_view :=
  let (m_sv, other_sv) := other.m_sv.move_ctor
  (⟨m_sv⟩, ⟨other_sv⟩)

end cstring_view

/-- All `cstring_view` objects created so far, indexed in order of creation. -/
abbrev Views := List cstring_view

/-- The statements of a client program that act on `cstring_view` objects. -/
inductive ViewOp where
  | default (lit : Nat)
  | of_c_str (s : Ptr)
  | of_null_terminated (lit : Nat) (sv : string_view)
  | of_string (str : string)
  | copy_construct (other : Nat)
  | move_construct (other : Nat)
  | copy_assign (self other : Nat)
  | move_assign (self other : Nat)
deriving DecidableEq

namespace Views

/-- The statement `cstring_view x{other};`. -/
def copy_construct (vs : Views) (other : Nat) : Option Views :=
  match vs[other]? with
  | some y =>
    let (x, y1) := y.copy_ctor
    some (vs.set other y1 ++ [x])
  | none => none

/-- The statement `cstring_view x{std::move(other)};`. -/
def move_construct (vs : Views) (other : Nat) : Option Views :=
  match vs[other]? with
  | some y =>
    let (x, y1) := y.move_ctor
    some (vs.set other y1 ++ [x])
  | none => none

/-- The statement `self = other;`: the implicit copy assignment assigns the member
`m_sv`, whatever the two objects are. -/
def copy_assign (vs : Views) (self other : Nat) : Option Views :=
  match vs[self]?, vs[other]? with
  | some _, some y =>
    let (m_sv, other_sv) := y.m_sv.copy_ctor
    some ((vs.set other ⟨other_sv⟩).set self ⟨m_sv⟩)
  | _, _ => none

/-- The statement `self = std::move(other);`: the implicit move assignment assigns
the member `m_sv`, whatever the two objects are. -/
def move_assign (vs : Views) (self other : Nat) : Option Views :=
  match vs[self]?, vs[other]? with
  | some _, some y =>
    let (m_sv, other_sv) := y.m_sv.move_ctor
    some ((vs.set other ⟨other_sv⟩).set self ⟨m_sv⟩)
  | _, _ => none

/-- One statement; `none` when a constructor does not return or an object that
does not exist is used. -/
def step (mem : Mem) (vs : Views) : ViewOp → Option Views
  | .default lit => some (vs ++ [cstring_view.default lit])
  | .of_c_str s =>
    match cstring_view.of_c_str mem s with
    | .ok v => some (vs ++ [v])
    | .error _ => none
  | .of_null_terminated lit sv => some (vs ++ [cstring_view.of_null_terminated lit sv])
  | .of_string str => some (vs ++ [cstring_view.of_string str])
  | .copy_construct other => vs.copy_construct other
  | .move_construct other => vs.move_construct other
  | .copy_assign self other => vs.copy_assign self other
  | .move_assign self other => vs.move_assign self other

/-- A sequence of statements, from left to right. -/
def run (mem : Mem) (vs : Views) : List ViewOp → Option Views
  | [] => some vs
  | op :: ops => (step mem vs op).bind fun vs1 => run mem vs1 ops

end Views

/-! ## Deleters of adopted buffers -/

/-- The buffer at `a` is adopted with the deleter `d` by a statement of the
program. -/
def adopted_with {δ : Type} (ops : List (Op δ)) (d : δ) (a : Nat) : Prop :=
  Op.construct (some a) d ∈ ops

/-- Every live owner of a buffer holds, and every release was made by, a deleter
the buffer was adopted with. -/
def World.deleters_match {δ : Type} (ops : List (Op δ)) (w : World δ) : Prop :=
  (∀ c a, some c ∈ w.objs → c.m_str.ptr = some a → adopted_with ops c.m_str.deleter a) ∧
  (∀ d a, (d, a) ∈ w.log → adopted_with ops d a)

/-! ## Example data -/

/-- A memory holding "Hi" at address 0, "" at address 3 and "a\0b" at address 4. -/
def example_mem : Mem := [72, 105, 0, 0, 97, 0, 98, 0]

/-- Two live objects with deleters 1 and 2: the first owns the buffer at 0, the
second the buffer at 4. -/
def example_world : World Nat :=
  ⟨[some ⟨⟨some 0, 1⟩, 2⟩, some ⟨⟨some 4, 2⟩, 1⟩], []⟩

/-- A memory holding "ab" twice, at addresses 0 and 3. -/
def example_mem_twice : Mem := [97, 98, 0, 97, 98, 0]

/-- Two views: one of "Hi" at address 0 and the default one with its literal at
address 3. -/
def example_views : Views := [⟨⟨some 0, 2⟩⟩, ⟨⟨some 3, 0⟩⟩]

/-! ## Lemmas on scanning -/

theorem scan_eq_some_iff (l : List Nat) (n : Nat) :
    scan l = some n ↔ l[n]? = some 0 ∧ ∀ i, i < n → l[i]? ≠ some 0 := by
  induction l generalizing n with
  | nil => simp [scan]
  | cons b bs ih =>
    by_cases hb : b = 0
    · subst hb
      constructor
      · intro h
        simp [scan] at h
        subst h
        simp
      · rintro ⟨_, h2⟩
        cases n with
        | zero => simp [scan]
        | succ k => exact absurd (by simp) (h2 0 (Nat.succ_pos k))
    · cases n with
      | zero =>
        simp [scan, hb]
      | succ k =>
        simp only [scan, hb, if_false, Option.map_eq_some', List.getElem?_cons_succ]
        constructor
        · rintro ⟨m, hm, hk⟩
          have hmk : m = k := by omega
          subst hmk
          obtain ⟨h1, h2⟩ := (ih m).1 hm
          refine ⟨h1, ?_⟩
          intro i hi
          cases i with
          | zero => simpa using hb
          | succ j =>
            simp only [List.getElem?_cons_succ]
            exact h2 j (by omega)
        · rintro ⟨h1, h2⟩
          refine ⟨k, (ih k).2 ⟨h1, ?_⟩, rfl⟩
          intro i hi
          have := h2 (i + 1) (by omega)
          simpa using this

theorem char_traits_length_ok_iff (mem : Mem) (a n : Nat) :
    char_traits_length mem (some a) = .ok n ↔ terminated_at mem a n := by
  unfold char_traits_length terminated_at load
  have key := scan_eq_some_iff (mem.drop a) n
  simp only [List.getElem?_drop] at key
  cases hs : scan (mem.drop a) with
  | none =>
    simp only [hs, false_iff, reduceCtorEq] at key ⊢
    exact key
  | some m =>
    simp only [hs, Option.some.injEq, Except.ok.injEq] at key ⊢
    exact key

theorem terminated_at_in_bounds {mem : Mem} {a n : Nat} (h : terminated_at mem a n) :
    a + n < mem.length := by
  have h1 := h.1
  unfold load at h1
  exact (List.getElem?_eq_some_iff.1 h1).1

theorem terminated_at_zero_iff {mem : Mem} {a n : Nat} (h : terminated_at mem a n) :
    n = 0 ↔ load mem a = some 0 := by
  constructor
  · intro hn
    subst hn
    simpa using h.1
  · intro h0
    by_contra hn
    exact h.2 0 (Nat.pos_of_ne_zero hn) (by simpa using h0)

/-! ## Move construction -/

/-- C2. Move construction: after `B` is move-constructed from `A`, the source is
null with length 0 and a null `c_str()`, and `B` has the pointer, the length
and the bounded-view content that `A` had before the move. -/
theorem move_ctor_law {δ : Type} (A : cstring δ) (mem : Mem) :
    (A.move_ctor).2.is_null = true ∧ (A.move_ctor).2.length = 0 ∧
    (A.move_ctor).2.c_str = none ∧
    (A.move_ctor).1.c_str = A.c_str ∧ (A.move_ctor).1.length = A.length ∧
    (A.move_ctor).1.to_string_view = A.to_string_view ∧
    (A.move_ctor).1.to_string_view.bytes mem = A.to_string_view.bytes mem := by
  simp [cstring.move_ctor, unique_ptr.move_ctor, unique_ptr.release, cstring.is_null,
    unique_ptr.to_bool, cstring.length, cstring.c_str, unique_ptr.get,
    cstring.to_string_view]

/-! ## Adoption -/

/-- The two adopting constructors have the same body: the one without a deleter
argument is the other one applied to a value-initialised deleter. -/
theorem ctor_eq_ctor_deleter {δ : Type} [Inhabited δ] (mem : Mem) (s : Ptr) :
    (cstring.ctor mem s : Except Fault (cstring δ)) =
      cstring.ctor_deleter mem s Inhabited.default := rfl

/-- C5. Adoption of a present buffer: when `a` points to a null-terminated buffer
whose first zero byte is at offset `n`, both constructors succeed and give an
instance that is not null, whose `c_str()` is `a` and whose `length()` is `n`;
it is empty exactly when the first byte of the buffer is zero. -/
theorem ctor_adopts_present_buffer {δ : Type} [Inhabited δ] (mem : Mem) (a n : Nat) (d : δ)
    (h : terminated_at mem a n) :
    (∃ c, cstring.ctor_deleter mem (some a) d = .ok c ∧ c.is_null = false ∧
      c.c_str = some a ∧ c.length = n ∧ (c.is_empty = true ↔ load mem a = some 0)) ∧
    (∃ c : cstring δ, cstring.ctor mem (some a) = .ok c ∧ c.is_null = false ∧
      c.c_str = some a ∧ c.length = n ∧ (c.is_empty = true ↔ load mem a = some 0)) := by
  have hlen := (char_traits_length_ok_iff mem a n).2 h
  have hz := terminated_at_zero_iff h
  constructor
  · refine ⟨⟨⟨some a, d⟩, n⟩, ?_, ?_⟩
    · simp [cstring.ctor_deleter, unique_ptr.to_bool, unique_ptr.get, hlen]
    · simpa [cstring.is_null, unique_ptr.to_bool, cstring.c_str, unique_ptr.get,
        cstring.length, cstring.is_empty] using hz
  · refine ⟨⟨⟨some a, Inhabited.default⟩, n⟩, ?_, ?_⟩
    · simp [cstring.ctor, unique_ptr.to_bool, unique_ptr.get, hlen]
    · simpa [cstring.is_null, unique_ptr.to_bool, cstring.c_str, unique_ptr.get,
        cstring.length, cstring.is_empty] using hz

theorem ctor_adopts_present_buffer_witness :
    terminated_at [72, 105, 0, 7] 0 2 ∧
    (∃ c, cstring.ctor_deleter [72, 105, 0, 7] (some 0) default_delete.free = .ok c ∧
      c.is_null = false ∧ c.c_str = some 0 ∧ c.length = 2 ∧
      (c.is_empty = true ↔ load [72, 105, 0, 7] 0 = some 0)) ∧
    (∃ c : cstring default_delete, cstring.ctor [72, 105, 0, 7] (some 0) = .ok c ∧
      c.is_null = false ∧ c.c_str = some 0 ∧ c.length = 2 ∧
      (c.is_empty = true ↔ load [72, 105, 0, 7] 0 = some 0)) :=
  ⟨by decide, ctor_adopts_present_buffer [72, 105, 0, 7] 0 2 default_delete.free (by decide)⟩

/-- C6. Benign absence: adopting the null pointer succeeds with either
constructor and gives an instance that is null, has length 0, is empty and
has a null `c_str()`; its destructor leaves the release log as it was, also
when the instance is created and destroyed as an object of a world. -/
theorem ctor_null_is_benign {δ : Type} [Inhabited δ] (mem : Mem) (d : δ) (log : Log δ)
    (w : World δ) :
    (∃ c, cstring.ctor_deleter mem none d = .ok c ∧ c.is_null = true ∧ c.length = 0 ∧
      c.is_empty = true ∧ c.c_str = none ∧ c.dtor log = log) ∧
    (∃ c : cstring δ, cstring.ctor mem none = .ok c ∧ c.is_null = true ∧ c.length = 0 ∧
      c.is_empty = true ∧ c.c_str = none ∧ c.dtor log = log) ∧
    (∃ w1 w2, w.construct mem none d = some w1 ∧ w1.destroy w.objs.length = some w2 ∧
      w2.log = w.log) := by
  refine ⟨⟨⟨⟨none, d⟩, 0⟩, ?_⟩, ⟨⟨⟨none, Inhabited.default⟩, 0⟩, ?_⟩, ?_⟩
  · simp [cstring.ctor_deleter, unique_ptr.to_bool, cstring.is_null, cstring.length,
      cstring.is_empty, cstring.c_str, unique_ptr.get, cstring.dtor, unique_ptr.dtor]
  · simp [cstring.ctor, unique_ptr.to_bool, cstring.is_null, cstring.length,
      cstring.is_empty, cstring.c_str, unique_ptr.get, cstring.dtor, unique_ptr.dtor]
  · simp [World.construct, World.destroy, cstring.ctor_deleter, unique_ptr.to_bool,
      cstring.dtor, unique_ptr.dtor]

/-! ## Views -/

/-- C7. View from a bare pointer: when `a` points to a null-terminated buffer
whose first zero byte is at offset `n`, the constructor from `const char*`
succeeds, `c_str()` is `a`, `length()` is `n`, and the bounded-view conversion
holds the `n` bytes of the buffer before that terminator. -/
theorem view_of_c_str_scans (mem : Mem) (a n : Nat) (h : terminated_at mem a n) :
    ∃ v, cstring_view.of_c_str mem (some a) = .ok v ∧ v.c_str = some a ∧ v.length = n ∧
      (v.to_string_view.bytes mem).length = n ∧
      ∀ i, i < n → (v.to_string_view.bytes mem)[i]? = load mem (a + i) := by
  have hlen := (char_traits_length_ok_iff mem a n).2 h
  have hb := terminated_at_in_bounds h
  refine ⟨⟨⟨some a, n⟩⟩, ?_, rfl, rfl, ?_, ?_⟩
  · simp [cstring_view.of_c_str, string_view.of_c_str, hlen]
  · simp only [cstring_view.to_string_view, string_view.bytes, List.length_take,
      List.length_drop]
    omega
  · intro i hi
    simp only [cstring_view.to_string_view, string_view.bytes, load]
    rw [List.getElem?_take_of_lt hi, List.getElem?_drop]

theorem view_of_c_str_scans_witness :
    terminated_at [72, 105, 0, 7] 0 2 ∧
    ∃ v, cstring_view.of_c_str [72, 105, 0, 7] (some 0) = .ok v ∧ v.c_str = some 0 ∧
      v.length = 2 ∧ (v.to_string_view.bytes [72, 105, 0, 7]).length = 2 ∧
      ∀ i, i < 2 → (v.to_string_view.bytes [72, 105, 0, 7])[i]? =
        load [72, 105, 0, 7] (0 + i) :=
  ⟨by decide, view_of_c_str_scans [72, 105, 0, 7] 0 2 (by decide)⟩

/-- C8. Guarantee path round trip: the view built through the `null_terminated`
token from the bounded view `(p, n)` with `p` not null has `length() == n` and
`c_str() == p`; no byte of memory is read, so its bounded-view content in any
memory is the full range of `n` bytes from `p`, zero bytes included. The
`_csv` literal operator applied to `(p, n)` gives the same view. -/
theorem guarantee_path_round_trip (lit p n : Nat) (mem : Mem) :
    (cstring_view.of_null_terminated lit ⟨some p, n⟩).length = n ∧
    (cstring_view.of_null_terminated lit ⟨some p, n⟩).c_str = some p ∧
    (cstring_view.of_null_terminated lit ⟨some p, n⟩).to_string_view.bytes mem =
      (mem.drop p).take n ∧
    cstring_view.operator_csv lit (some p) n =
      cstring_view.of_null_terminated lit ⟨some p, n⟩ ∧
    (cstring_view.operator_csv lit (some p) n).length = n ∧
    (cstring_view.operator_csv lit (some p) n).c_str = some p := by
  simp [cstring_view.of_null_terminated, cstring_view.operator_csv, string_view.of_ptr_len,
    cstring_view.length, string_view.length, cstring_view.c_str,
    cstring_view.to_string_view, string_view.bytes]

/-! ## Move assignment -/

theorem getElem?_lt_of_eq_some {α : Type} {l : List α} {i : Nat} {x : α}
    (h : l[i]? = some x) : i < l.length :=
  (List.getElem?_eq_some_iff.1 h).1

/-- C3, amended. Move assignment between two distinct live objects `i`
(destination `D`) and `j` (source `S`): the assignment succeeds; afterwards
the destination has the pointer and length `S` had, the source is null with
length 0, every other object is unchanged, and the release log has grown by
exactly one call, of the old deleter of `D` on the buffer `D` owned, when `D`
owned one, and by nothing otherwise. Hence the buffer `D` owned is released
once by the assignment, and the buffer of `S` is not released by it provided
`D` and `S` do not own the same buffer. -/
theorem move_assign_distinct {δ : Type} (w : World δ) (i j : Nat) (D S : cstring δ)
    (hD : w.objs[i]? = some (some D)) (hS : w.objs[j]? = some (some S)) (hne : i ≠ j) :
    ∃ w1 D1 S1, w.move_assign i j = some w1 ∧
      w1.objs[i]? = some (some D1) ∧ w1.objs[j]? = some (some S1) ∧
      D1.c_str = S.c_str ∧ D1.length = S.length ∧
      S1.is_null = true ∧ S1.length = 0 ∧ S1.c_str = none ∧
      (∀ k, k ≠ i → k ≠ j → w1.objs[k]? = w.objs[k]?) ∧
      w1.log = w.log ++ (match D.c_str with
        | some a => [(D.m_str.deleter, a)]
        | none => []) ∧
      (∀ a, D.c_str = some a → w1.released a = w.released a + 1) ∧
      (∀ a, S.c_str = some a → D.c_str ≠ some a → w1.released a = w.released a) := by
  have hi := getElem?_lt_of_eq_some hD
  have hj := getElem?_lt_of_eq_some hS
  have hlog : (cstring.move_assign_body D S w.log).2.2 = w.log ++ (match D.c_str with
        | some a => [(D.m_str.deleter, a)]
        | none => []) := by
    cases hp : D.m_str.ptr with
    | none =>
      simp [cstring.move_assign_body, unique_ptr.move_assign, unique_ptr.reset,
        unique_ptr.release, cstring.c_str, unique_ptr.get, hp]
    | some a =>
      simp [cstring.move_assign_body, unique_ptr.move_assign, unique_ptr.reset,
        unique_ptr.release, cstring.c_str, unique_ptr.get, hp, invoke]
  refine ⟨⟨(w.objs.set i (some (cstring.move_assign_body D S w.log).1)).set j
      (some (cstring.move_assign_body D S w.log).2.1),
      (cstring.move_assign_body D S w.log).2.2⟩,
    (cstring.move_assign_body D S w.log).1, (cstring.move_assign_body D S w.log).2.1,
    ?_, ?_, ?_, ?_, ?_, ?_, ?_, ?_, ?_, hlog, ?_, ?_⟩
  · simp [World.move_assign, hD, hS, hne]
  · simp [List.getElem?_set, hne, Ne.symm hne, hi]
  · simp [List.getElem?_set, hi, hj]
  · simp [cstring.move_assign_body, unique_ptr.move_assign, unique_ptr.reset,
      unique_ptr.release, cstring.c_str, unique_ptr.get]
    cases D.m_str.ptr <;> rfl
  · simp [cstring.move_assign_body, cstring.length]
  · simp [cstring.move_assign_body, unique_ptr.move_assign, unique_ptr.release,
      cstring.is_null, unique_ptr.to_bool]
  · simp [cstring.move_assign_body, cstring.length]
  · simp [cstring.move_assign_body, unique_ptr.move_assign, unique_ptr.release,
      cstring.c_str, unique_ptr.get]
  · intro k hki hkj
    simp [List.getElem?_set, Ne.symm hki, Ne.symm hkj]
  · intro a ha
    simp only [World.released, hlog, ha]
    simp
  · intro a _ hDa
    simp only [World.released, hlog]
    cases hp : D.c_str with
    | none => simp
    | some b =>
      have hba : b ≠ a := fun e => hDa (by rw [hp, e])
      simp [List.count_singleton, hba]

theorem move_assign_distinct_witness :
    example_world.objs[0]? = some (some ⟨⟨some 0, 1⟩, 2⟩) ∧
    example_world.objs[1]? = some (some ⟨⟨some 4, 2⟩, 1⟩) ∧ 0 ≠ 1 ∧
    ∃ w1 D1 S1, example_world.move_assign 0 1 = some w1 ∧
      w1.objs[0]? = some (some D1) ∧ w1.objs[1]? = some (some S1) ∧
      D1.c_str = (⟨⟨some 4, 2⟩, 1⟩ : cstring Nat).c_str ∧
      D1.length = (⟨⟨some 4, 2⟩, 1⟩ : cstring Nat).length ∧
      S1.is_null = true ∧ S1.length = 0 ∧ S1.c_str = none ∧
      (∀ k, k ≠ 0 → k ≠ 1 → w1.objs[k]? = example_world.objs[k]?) ∧
      w1.log = example_world.log ++ (match (⟨⟨some 0, 1⟩, 2⟩ : cstring Nat).c_str with
        | some a => [((⟨⟨some 0, 1⟩, 2⟩ : cstring Nat).m_str.deleter, a)]
        | none => []) ∧
      (∀ a, (⟨⟨some 0, 1⟩, 2⟩ : cstring Nat).c_str = some a →
        w1.released a = example_world.released a + 1) ∧
      (∀ a, (⟨⟨some 4, 2⟩, 1⟩ : cstring Nat).c_str = some a →
        (⟨⟨some 0, 1⟩, 2⟩ : cstring Nat).c_str ≠ some a →
        w1.released a = example_world.released a) :=
  ⟨by decide, by decide, by decide,
    move_assign_distinct example_world 0 1 ⟨⟨some 0, 1⟩, 2⟩ ⟨⟨some 4, 2⟩, 1⟩
      (by decide) (by decide) (by decide)⟩

/-- C3, as stated, fails when the two distinct objects own the same buffer:
after the buffer at 0 has been adopted twice, with deleters 1 and 2, the
objects 0 and 1 are distinct and both own it; the assignment of object 1 to
object 0 then calls deleter 1 on the buffer at 0, which is the buffer of the
source, so that buffer has been released by the assignment. -/
theorem move_assign_distinct_counterexample :
    World.run example_mem World.empty [Op.construct (some 0) 1, Op.construct (some 0) 2]
      = some ⟨[some ⟨⟨some 0, 1⟩, 2⟩, some ⟨⟨some 0, 2⟩, 2⟩], []⟩ ∧
    (0 : Nat) ≠ 1 ∧
    (⟨⟨some 0, 2⟩, 2⟩ : cstring Nat).c_str = some 0 ∧
    World.move_assign (⟨[some ⟨⟨some 0, 1⟩, 2⟩, some ⟨⟨some 0, 2⟩, 2⟩], []⟩ : World Nat) 0 1
      = some ⟨[some ⟨⟨some 0, 2⟩, 2⟩, some ⟨⟨none, 2⟩, 0⟩], [(1, 0)]⟩ ∧
    (⟨[some ⟨⟨some 0, 1⟩, 2⟩, some ⟨⟨some 0, 2⟩, 2⟩], []⟩ : World Nat).released 0 = 0 ∧
    (⟨[some ⟨⟨some 0, 2⟩, 2⟩, some ⟨⟨none, 2⟩, 0⟩], [(1, 0)]⟩ : World Nat).released 0 = 1 := by
  decide

/-- C4. Self-move-assignment of a live object `x` is a no-op: the assignment
succeeds and leaves the world as it was, so `c_str()`, `length()`,
`is_empty()` and `is_null()` of `x` are unchanged and the release log has not
grown. -/
theorem move_assign_self_noop {δ : Type} (w : World δ) (i : Nat) (x : cstring δ)
    (hx : w.objs[i]? = some (some x)) :
    ∃ w1 x1, w.move_assign i i = some w1 ∧ w1.objs[i]? = some (some x1) ∧
      x1.c_str = x.c_str ∧ x1.length = x.length ∧ x1.is_empty = x.is_empty ∧
      x1.is_null = x.is_null ∧ w1.log = w.log ∧ w1.objs = w.objs := by
  refine ⟨w, x, ?_, hx, rfl, rfl, rfl, rfl, rfl, rfl⟩
  simp [World.move_assign, hx]

theorem move_assign_self_noop_witness :
    example_world.objs[0]? = some (some ⟨⟨some 0, 1⟩, 2⟩) ∧
    ∃ w1 x1, example_world.move_assign 0 0 = some w1 ∧ w1.objs[0]? = some (some x1) ∧
      x1.c_str = (⟨⟨some 0, 1⟩, 2⟩ : cstring Nat).c_str ∧
      x1.length = (⟨⟨some 0, 1⟩, 2⟩ : cstring Nat).length ∧
      x1.is_empty = (⟨⟨some 0, 1⟩, 2⟩ : cstring Nat).is_empty ∧
      x1.is_null = (⟨⟨some 0, 1⟩, 2⟩ : cstring Nat).is_null ∧
      w1.log = example_world.log ∧ w1.objs = example_world.objs :=
  ⟨by decide, move_assign_self_noop example_world 0 ⟨⟨some 0, 1⟩, 2⟩ (by decide)⟩

/-! ## Exactly-once release -/

theorem countP_set_add {α : Type} (p : α → Bool) (l : List α) (i : Nat) (x y : α)
    (h : l[i]? = some y) :
    (l.set i x).countP p + (if p y then 1 else 0) =
      l.countP p + (if p x then 1 else 0) := by
  induction l generalizing i with
  | nil => simp at h
  | cons z zs ih =>
    cases i with
    | zero =>
      simp only [List.getElem?_cons_zero, Option.some.injEq] at h
      subst h
      simp only [List.set_cons_zero, List.countP_cons]
      omega
    | succ k =>
      simp only [List.getElem?_cons_succ] at h
      have := ih k h
      simp only [List.set_cons_succ, List.countP_cons]
      omega

theorem released_append {δ : Type} (objs : List (Option (cstring δ))) (log : Log δ)
    (d : δ) (b a : Nat) :
    World.released ⟨objs, log ++ [(d, b)]⟩ a =
      World.released ⟨objs, log⟩ a + (if b = a then 1 else 0) := by
  simp [World.released, List.count_singleton]

theorem ctor_deleter_m_str {δ : Type} {mem : Mem} {s : Ptr} {d : δ} {c : cstring δ}
    (h : cstring.ctor_deleter mem s d = .ok c) : c.m_str = ⟨s, d⟩ := by
  cases s with
  | none =>
    simp only [cstring.ctor_deleter, unique_ptr.to_bool, Option.isSome_none,
      Bool.false_eq_true, if_false, Except.ok.injEq] at h
    rw [← h]
  | some a =>
    simp only [cstring.ctor_deleter, unique_ptr.to_bool, Option.isSome_some, if_true] at h
    cases hl : char_traits_length mem (unique_ptr.get ⟨some a, d⟩) with
    | error f => rw [hl] at h; cases h
    | ok n =>
      rw [hl] at h
      simp only [Except.ok.injEq] at h
      rw [← h]

/-- Each statement keeps the balance: releases of `a` plus live owners of `a` grow
exactly by the adoptions of `a`. -/
theorem step_balance {δ : Type} (mem : Mem) (w w1 : World δ) (op : Op δ) (a : Nat)
    (h : World.step mem w op = some w1) :
    w1.released a + w1.held a =
      w.released a + w.held a + (if op.adopts a then 1 else 0) := by
  cases op with
  | construct s d =>
    simp only [World.step, World.construct] at h
    cases hc : cstring.ctor_deleter mem s d with
    | error f => simp [hc] at h
    | ok c =>
      simp only [hc, Option.some.injEq] at h
      subst h
      have hptr : c.m_str.ptr = s := by rw [ctor_deleter_m_str hc]
      simp only [World.released, World.held, List.countP_append, List.countP_cons,
        List.countP_nil, World.holds, Op.adopts, hptr]
      omega
  | move_construct j =>
    simp only [World.step, World.move_construct] at h
    cases hy : w.objs[j]? with
    | none => simp [hy] at h
    | some o =>
      cases o with
      | none => simp [hy] at h
      | some y =>
        simp only [hy, Option.some.injEq] at h
        subst h
        have hs := countP_set_add (fun o => World.holds o a) w.objs j
          (some (cstring.move_ctor y).2) (some y) hy
        simp only [World.released, World.held, List.countP_append, List.countP_cons,
          List.countP_nil, Op.adopts]
        simp only [World.holds, cstring.move_ctor, unique_ptr.move_ctor,
          unique_ptr.release] at hs ⊢
        simp only [beq_iff_eq, reduceCtorEq, if_false, Bool.false_eq_true] at hs ⊢
        omega
  | move_assign i j =>
    simp only [World.step, World.move_assign] at h
    cases hx : w.objs[i]? with
    | none => simp [hx] at h
    | some ox =>
      cases ox with
      | none => simp [hx] at h
      | some x =>
        cases hy : w.objs[j]? with
        | none => simp [hx, hy] at h
        | some oy =>
          cases oy with
          | none => simp [hx, hy] at h
          | some y =>
            by_cases hij : i = j
            · simp only [hx, hy, hij, ne_eq, not_true_eq_false, if_false,
                Option.some.injEq] at h
              subst h
              simp [Op.adopts]
            · simp only [hx, hy, hij, ne_eq, not_false_eq_true, if_true,
                Option.some.injEq] at h
              subst h
              have hi := getElem?_lt_of_eq_some hx
              have hy1 : (w.objs.set i (some (cstring.move_assign_body x y w.log).1))[j]?
                  = some (some y) := by
                rw [List.getElem?_set_ne hij]; exact hy
              have hs1 := countP_set_add (fun o => World.holds o a) w.objs i
                (some (cstring.move_assign_body x y w.log).1) (some x) hx
              have hs2 := countP_set_add (fun o => World.holds o a)
                (w.objs.set i (some (cstring.move_assign_body x y w.log).1)) j
                (some (cstring.move_assign_body x y w.log).2.1) (some y) hy1
              simp only [World.held, Op.adopts]
              cases hp : x.m_str.ptr with
              | none =>
                simp only [World.holds, cstring.move_assign_body, unique_ptr.move_assign,
                  unique_ptr.reset, unique_ptr.release, hp, World.released] at hs1 hs2 ⊢
                simp only [beq_iff_eq, reduceCtorEq, if_false, Bool.false_eq_true] at hs1 hs2 ⊢
                omega
              | some b =>
                simp only [World.holds, cstring.move_assign_body, unique_ptr.move_assign,
                  unique_ptr.reset, unique_ptr.release, hp, invoke] at hs1 hs2 ⊢
                rw [released_append]
                simp only [beq_iff_eq, reduceCtorEq, if_false, Option.some.injEq,
                  Bool.false_eq_true] at hs1 hs2 ⊢
                simp only [World.released]
                omega
  | destroy i =>
    simp only [World.step, World.destroy] at h
    cases hx : w.objs[i]? with
    | none => simp [hx] at h
    | some ox =>
      cases ox with
      | none => simp [hx] at h
      | some x =>
        simp only [hx, Option.some.injEq] at h
        subst h
        have hs := countP_set_add (fun o => World.holds o a) w.objs i none (some x) hx
        simp only [World.held, Op.adopts]
        cases hp : x.m_str.ptr with
        | none =>
          simp only [World.holds, cstring.dtor, unique_ptr.dtor, hp, World.released]
            at hs ⊢
          simp only [beq_iff_eq, reduceCtorEq, if_false, Bool.false_eq_true] at hs ⊢
          omega
        | some b =>
          simp only [World.holds, cstring.dtor, unique_ptr.dtor, hp, invoke] at hs ⊢
          rw [released_append]
          simp only [beq_iff_eq, reduceCtorEq, if_false, Option.some.injEq,
            Bool.false_eq_true] at hs ⊢
          simp only [World.released]
          omega

theorem run_balance {δ : Type} (mem : Mem) (ops : List (Op δ)) (w w1 : World δ) (a : Nat)
    (h : World.run mem w ops = some w1) :
    w1.released a + w1.held a = w.released a + w.held a + adoptions ops a := by
  induction ops generalizing w with
  | nil =>
    simp only [World.run, Option.some.injEq] at h
    subst h
    simp [adoptions]
  | cons op ops ih =>
    simp only [World.run] at h
    cases hs : World.step mem w op with
    | none => simp [hs] at h
    | some w2 =>
      simp only [hs, Option.some_bind] at h
      have h1 := step_balance mem w w2 op a hs
      have h2 := ih w2 h
      simp only [adoptions, List.countP_cons] at h2 ⊢
      omega

theorem held_eq_zero_of_all_dead {δ : Type} (w : World δ) (a : Nat)
    (h : ∀ o ∈ w.objs, o = none) : w.held a = 0 := by
  unfold World.held
  rw [List.countP_eq_zero]
  intro o ho
  rw [h o ho]
  simp [World.holds]

/-- C1. Exactly-once release: run any program of adoptions, move constructions,
move assignments (self-assignment included) and destructions that stays
within the lifetimes of its objects, and let every object be destroyed at the
end. Then for every buffer `a` the number of deleter calls on `a` equals the
number of adoptions of `a`: exactly one call for a buffer adopted once.
Moreover the destructor of a moved-from instance calls no deleter. -/
theorem exactly_once_release {δ : Type} (mem : Mem) (ops : List (Op δ)) (w : World δ)
    (a : Nat) (hrun : World.run mem World.empty ops = some w)
    (hdead : ∀ o ∈ w.objs, o = none) :
    w.released a = adoptions ops a ∧
    (adoptions ops a = 1 → w.released a = 1) ∧
    (∀ (c : cstring δ) (log : Log δ), (c.move_ctor).2.dtor log = log) := by
  have hb := run_balance mem ops World.empty w a hrun
  have hz := held_eq_zero_of_all_dead w a hdead
  have h0 : (World.empty : World δ).released a + (World.empty : World δ).held a = 0 := by
    simp [World.empty, World.released, World.held]
  have hmain : w.released a = adoptions ops a := by omega
  refine ⟨hmain, fun h1 => by omega, ?_⟩
  intro c log
  simp [cstring.move_ctor, unique_ptr.move_ctor, unique_ptr.release, cstring.dtor,
    unique_ptr.dtor]

theorem exactly_once_release_witness :
    World.run example_mem World.empty
      [Op.construct (some 0) 7, Op.move_construct 0, Op.move_assign 1 1,
        Op.construct none 7, Op.move_assign 2 1, Op.destroy 0, Op.destroy 1,
        Op.destroy 2] = some ⟨[none, none, none], [(7, 0)]⟩ ∧
    (∀ o ∈ (⟨[none, none, none], [(7, 0)]⟩ : World Nat).objs, o = none) ∧
    ((⟨[none, none, none], [(7, 0)]⟩ : World Nat).released 0 =
        adoptions [Op.construct (some 0) 7, Op.move_construct 0, Op.move_assign 1 1,
          Op.construct none 7, Op.move_assign 2 1, Op.destroy 0, Op.destroy 1,
          Op.destroy 2] 0 ∧
      (adoptions [Op.construct (some 0) 7, Op.move_construct 0, Op.move_assign 1 1,
          Op.construct none 7, Op.move_assign 2 1, Op.destroy 0, Op.destroy 1,
          Op.destroy 2] 0 = 1 →
        (⟨[none, none, none], [(7, 0)]⟩ : World Nat).released 0 = 1) ∧
      (∀ (c : cstring Nat) (log : Log Nat), (c.move_ctor).2.dtor log = log)) :=
  ⟨by decide, by decide,
    exactly_once_release example_mem
      [Op.construct (some 0) 7, Op.move_construct 0, Op.move_assign 1 1,
        Op.construct none 7, Op.move_assign 2 1, Op.destroy 0, Op.destroy 1,
        Op.destroy 2] ⟨[none, none, none], [(7, 0)]⟩ 0 (by decide) (by decide)⟩

/-- The scenario of the test `FromCStringWithValueTypeDeleter`: two temporaries, each
adopting its own buffer and destroyed at the end of its statement, give two
deleter calls; an adopted and then moved buffer gives one. -/
theorem instrumented_deleter_counts :
    (World.run example_mem World.empty
      [Op.construct (some 0) 7, Op.destroy 0, Op.construct (some 4) 7, Op.destroy 1]).map
        (fun w => w.log.length) = some 2 ∧
    (World.run example_mem World.empty
      [Op.construct (some 0) 7, Op.move_construct 0, Op.destroy 1, Op.destroy 0]).map
        (fun w => w.log.length) = some 1 := by
  decide

/-! ## The state invariant along a run -/

theorem ctor_deleter_well_formed {δ : Type} {mem : Mem} {s : Ptr} {d : δ} {c : cstring δ}
    (h : cstring.ctor_deleter mem s d = .ok c) : c.well_formed mem := by
  cases s with
  | none =>
    simp only [cstring.ctor_deleter, unique_ptr.to_bool, Option.isSome_none,
      Bool.false_eq_true, if_false, Except.ok.injEq] at h
    rw [← h]
    simp [cstring.well_formed]
  | some a =>
    simp only [cstring.ctor_deleter, unique_ptr.to_bool, Option.isSome_some, if_true,
      unique_ptr.get] at h
    cases hl : char_traits_length mem (some a) with
    | error f => rw [hl] at h; cases h
    | ok n =>
      rw [hl] at h
      simp only [Except.ok.injEq] at h
      rw [← h]
      simpa [cstring.well_formed] using (char_traits_length_ok_iff mem a n).1 hl

theorem move_ctor_well_formed {δ : Type} {mem : Mem} {y : cstring δ}
    (h : y.well_formed mem) :
    (y.move_ctor).1.well_formed mem ∧ (y.move_ctor).2.well_formed mem := by
  constructor
  · simpa [cstring.well_formed, cstring.move_ctor, unique_ptr.move_ctor,
      unique_ptr.release] using h
  · simp [cstring.well_formed, cstring.move_ctor, unique_ptr.move_ctor,
      unique_ptr.release]

theorem move_assign_body_well_formed {δ : Type} {mem : Mem} (x : cstring δ)
    {y : cstring δ} (log : Log δ) (h : y.well_formed mem) :
    (cstring.move_assign_body x y log).1.well_formed mem ∧
    (cstring.move_assign_body x y log).2.1.well_formed mem := by
  constructor
  · cases hp : x.m_str.ptr <;>
      simpa [cstring.well_formed, cstring.move_assign_body, unique_ptr.move_assign,
        unique_ptr.reset, unique_ptr.release, hp] using h
  · simp [cstring.well_formed, cstring.move_assign_body, unique_ptr.move_assign,
      unique_ptr.release]

theorem step_well_formed {δ : Type} (mem : Mem) (w w1 : World δ) (op : Op δ)
    (hw : w.well_formed mem) (h : World.step mem w op = some w1) :
    w1.well_formed mem := by
  intro c hc
  cases op with
  | construct s d =>
    simp only [World.step, World.construct] at h
    cases hk : cstring.ctor_deleter mem s d with
    | error f => simp [hk] at h
    | ok c0 =>
      simp only [hk, Option.some.injEq] at h
      subst h
      simp only [List.mem_append, List.mem_singleton, Option.some.injEq] at hc
      rcases hc with hc | hc
      · exact hw c hc
      · subst hc
        exact ctor_deleter_well_formed hk
  | move_construct j =>
    simp only [World.step, World.move_construct] at h
    cases hy : w.objs[j]? with
    | none => simp [hy] at h
    | some o =>
      cases o with
      | none => simp [hy] at h
      | some y =>
        simp only [hy, Option.some.injEq] at h
        subst h
        have hy0 := hw y (List.getElem?_mem hy)
        simp only [List.mem_append, List.mem_singleton, Option.some.injEq] at hc
        rcases hc with hc | hc
        · rcases List.mem_or_eq_of_mem_set hc with hc | hc
          · exact hw c hc
          · simp only [Option.some.injEq] at hc
            subst hc
            exact (move_ctor_well_formed hy0).2
        · subst hc
          exact (move_ctor_well_formed hy0).1
  | move_assign i j =>
    simp only [World.step, World.move_assign] at h
    cases hx : w.objs[i]? with
    | none => simp [hx] at h
    | some ox =>
      cases ox with
      | none => simp [hx] at h
      | some x =>
        cases hy : w.objs[j]? with
        | none => simp [hx, hy] at h
        | some oy =>
          cases oy with
          | none => simp [hx, hy] at h
          | some y =>
            by_cases hij : i = j
            · simp only [hx, hy, hij, ne_eq, not_true_eq_false, if_false,
                Option.some.injEq] at h
              subst h
              exact hw c hc
            · simp only [hx, hy, hij, ne_eq, not_false_eq_true, if_true,
                Option.some.injEq] at h
              subst h
              have hy0 := hw y (List.getElem?_mem hy)
              rcases List.mem_or_eq_of_mem_set hc with hc | hc
              · rcases List.mem_or_eq_of_mem_set hc with hc | hc
                · exact hw c hc
                · simp only [Option.some.injEq] at hc
                  subst hc
                  exact (move_assign_body_well_formed x w.log hy0).1
              · simp only [Option.some.injEq] at hc
                subst hc
                exact (move_assign_body_well_formed x w.log hy0).2
  | destroy i =>
    simp only [World.step, World.destroy] at h
    cases hx : w.objs[i]? with
    | none => simp [hx] at h
    | some ox =>
      cases ox with
      | none => simp [hx] at h
      | some x =>
        simp only [hx, Option.some.injEq] at h
        subst h
        rcases List.mem_or_eq_of_mem_set hc with hc | hc
        · exact hw c hc
        · cases hc

theorem run_well_formed {δ : Type} (mem : Mem) (ops : List (Op δ)) (w w1 : World δ)
    (hw : w.well_formed mem) (h : World.run mem w ops = some w1) :
    w1.well_formed mem := by
  induction ops generalizing w with
  | nil =>
    simp only [World.run, Option.some.injEq] at h
    subst h
    exact hw
  | cons op ops ih =>
    simp only [World.run] at h
    cases hs : World.step mem w op with
    | none => simp [hs] at h
    | some w2 =>
      simp only [hs, Option.some_bind] at h
      exact ih w2 (step_well_formed mem w w2 op hw hs) h

theorem empty_well_formed {δ : Type} (mem : Mem) : (World.empty : World δ).well_formed mem := by
  intro c hc
  simp [World.empty] at hc

/-! ## The termination invariant -/

theorem terminated_at_literal {mem : Mem} {lit : Nat} (h : load mem lit = some 0) :
    terminated_at mem lit 0 :=
  ⟨by simpa using h, fun i hi => absurd hi (Nat.not_lt_zero i)⟩

/-- C10. For the null pointer the bare-pointer constructor of the view leaves
defined behaviour in the initialiser `m_sv{s}`, where the length of a null
pointer is taken, before the assertion in its body is evaluated: the outcome
is undefined behaviour, not an assertion failure, and no input at all makes
the assertion fail. -/
theorem of_c_str_null_is_undefined (mem : Mem) :
    cstring_view.of_c_str mem none = .error Fault.undefined ∧
    cstring_view.of_c_str mem none ≠ .error Fault.assertion ∧
    (∀ s, cstring_view.of_c_str mem s ≠ .error Fault.assertion) := by
  refine ⟨rfl, ?_, ?_⟩
  · simp [cstring_view.of_c_str, string_view.of_c_str, char_traits_length]
  · intro s
    cases s with
    | none => simp [cstring_view.of_c_str, string_view.of_c_str, char_traits_length]
    | some a =>
      cases hl : char_traits_length mem (some a) with
      | error f =>
        cases f with
        | undefined => simp [cstring_view.of_c_str, string_view.of_c_str, hl]
        | assertion =>
          exfalso
          unfold char_traits_length at hl
          cases hsc : scan (mem.drop a) <;> simp [hsc] at hl
      | ok n => simp [cstring_view.of_c_str, string_view.of_c_str, hl]

/-! ## The canonical empty view -/

theorem eq_of_size_zero (mem : Mem) (x y : string_view) (hx : x.size = 0)
    (hy : y.size = 0) : string_view.eq mem x y = true := by
  unfold string_view.eq string_view.bytes
  cases x.data <;> cases y.data <;> simp [hx, hy]

/-- C11. Graceful degradation: for a bounded view whose data pointer is null
(the default `std::string_view` among them), the constructor with the
guarantee token returns the view of the literal `""`: `length()` is 0,
`is_empty()` holds, `c_str()` is the address of the literal, which holds a
zero byte, and the view compares equal to every bounded view of size 0, so to
the empty bounded string. -/
theorem guarantee_path_absent_degrades (mem : Mem) (lit : Nat) (sv : string_view)
    (hsv : sv.data = none) (hlit : load mem lit = some 0) :
    (cstring_view.of_null_terminated lit sv).length = 0 ∧
    (cstring_view.of_null_terminated lit sv).is_empty = true ∧
    (cstring_view.of_null_terminated lit sv).c_str = some lit ∧
    (∃ a, (cstring_view.of_null_terminated lit sv).c_str = some a ∧ load mem a = some 0) ∧
    (∀ w : string_view, w.size = 0 →
      cstring_view.eq mem (cstring_view.of_null_terminated lit sv) w = true) ∧
    (∀ l, cstring_view.eq mem (cstring_view.of_null_terminated lit sv)
      (string_view.of_literal l []) = true) ∧
    cstring_view.of_null_terminated lit string_view.default =
      cstring_view.of_null_terminated lit sv := by
  have hv : cstring_view.of_null_terminated lit sv = ⟨⟨some lit, 0⟩⟩ := by
    simp [cstring_view.of_null_terminated, hsv, string_view.of_literal, scan]
  have hd : cstring_view.of_null_terminated lit string_view.default = ⟨⟨some lit, 0⟩⟩ := by
    simp [cstring_view.of_null_terminated, string_view.default, string_view.of_literal, scan]
  rw [hd, hv]
  refine ⟨rfl, rfl, rfl, ⟨lit, rfl, hlit⟩, ?_, ?_, rfl⟩
  · intro w hw
    exact eq_of_size_zero mem _ w rfl hw
  · intro l
    exact eq_of_size_zero mem _ _ rfl (by simp [string_view.of_literal, scan])

theorem guarantee_path_absent_degrades_witness :
    string_view.default.data = none ∧ load example_mem 3 = some 0 ∧
    (cstring_view.of_null_terminated 3 string_view.default).length = 0 ∧
    (cstring_view.of_null_terminated 3 string_view.default).is_empty = true ∧
    (cstring_view.of_null_terminated 3 string_view.default).c_str = some 3 ∧
    (∃ a, (cstring_view.of_null_terminated 3 string_view.default).c_str = some a ∧
      load example_mem a = some 0) ∧
    (∀ w : string_view, w.size = 0 →
      cstring_view.eq example_mem (cstring_view.of_null_terminated 3 string_view.default) w
        = true) ∧
    (∀ l, cstring_view.eq example_mem (cstring_view.of_null_terminated 3 string_view.default)
      (string_view.of_literal l []) = true) ∧
    cstring_view.of_null_terminated 3 string_view.default =
      cstring_view.of_null_terminated 3 string_view.default :=
  ⟨rfl, by decide,
    guarantee_path_absent_degrades example_mem 3 string_view.default rfl (by decide)⟩

/-- C18. The default-constructed view is the empty terminated value: `length()`
is 0, `is_empty()` holds, `c_str()` is the address of the literal `""`, which
holds a zero byte, and the view compares equal to every bounded view of size
0, so to the empty bounded string. -/
theorem default_view_is_empty (mem : Mem) (lit : Nat) (hlit : load mem lit = some 0) :
    (cstring_view.default lit).length = 0 ∧
    (cstring_view.default lit).is_empty = true ∧
    (cstring_view.default lit).c_str = some lit ∧
    (∃ a, (cstring_view.default lit).c_str = some a ∧ load mem a = some 0) ∧
    (cstring_view.default lit).terminated mem ∧
    (∀ w : string_view, w.size = 0 → cstring_view.eq mem (cstring_view.default lit) w = true) ∧
    (∀ l, cstring_view.eq mem (cstring_view.default lit) (string_view.of_literal l []) = true) := by
  have hv : cstring_view.default lit = ⟨⟨some lit, 0⟩⟩ := by
    simp [cstring_view.default, string_view.of_literal, scan]
  rw [hv]
  refine ⟨rfl, rfl, rfl, ⟨lit, rfl, hlit⟩, ?_, ?_, ?_⟩
  · simpa [cstring_view.terminated, cstring_view.c_str, cstring_view.length,
      string_view.length] using terminated_at_literal hlit
  · intro w hw
    exact eq_of_size_zero mem _ w rfl hw
  · intro l
    exact eq_of_size_zero mem _ _ rfl (by simp [string_view.of_literal, scan])

theorem default_view_is_empty_witness :
    load example_mem 3 = some 0 ∧
    (cstring_view.default 3).length = 0 ∧
    (cstring_view.default 3).is_empty = true ∧
    (cstring_view.default 3).c_str = some 3 ∧
    (∃ a, (cstring_view.default 3).c_str = some a ∧ load example_mem a = some 0) ∧
    (cstring_view.default 3).terminated example_mem ∧
    (∀ w : string_view, w.size = 0 →
      cstring_view.eq example_mem (cstring_view.default 3) w = true) ∧
    (∀ l, cstring_view.eq example_mem (cstring_view.default 3)
      (string_view.of_literal l []) = true) :=
  ⟨by decide, default_view_is_empty example_mem 3 (by decide)⟩

/-! ## Views of `std::string` and of owning strings -/

/-- C17. View from a `std::string`: `length()` is `str.length()`, `c_str()` is
the address of the buffer of `str`, `is_empty()` agrees with `str.empty()`,
and the bounded-view conversion holds the contents of `str`, whatever bytes
they are. -/
theorem view_of_string (mem : Mem) (str : string) :
    (cstring_view.of_string str).length = str.length ∧
    (cstring_view.of_string str).c_str = some str.data ∧
    (cstring_view.of_string str).is_empty = str.empty ∧
    ((cstring_view.of_string str).is_empty = true ↔ str.length = 0) ∧
    (cstring_view.of_string str).to_string_view.bytes mem = str.contents mem := by
  refine ⟨rfl, rfl, rfl, ?_, rfl⟩
  simp [cstring_view.of_string, string.to_string_view, cstring_view.is_empty,
    string_view.empty, string.length]

/-- C14. State invariant of the owning string: every live object of a world
reached by a run of adoptions, move constructions, move assignments and
destructions has length 0 when it is null, and otherwise owns a buffer whose
first zero byte is at offset `length()`, the value `char_traits::length`
gives for it. -/
theorem state_invariant_reachable {δ : Type} (mem : Mem) (ops : List (Op δ)) (w : World δ)
    (i : Nat) (c : cstring δ) (hrun : World.run mem World.empty ops = some w)
    (hc : w.objs[i]? = some (some c)) :
    (c.is_null = true → c.length = 0) ∧
    (c.is_null = false → ∃ a, c.c_str = some a ∧ terminated_at mem a c.length ∧
      char_traits_length mem c.c_str = .ok c.length) := by
  have hwf := run_well_formed mem ops World.empty w (empty_well_formed mem) hrun c
    (List.getElem?_mem hc)
  cases hp : c.m_str.ptr with
  | none =>
    refine ⟨fun _ => ?_, fun h => ?_⟩
    · simpa [cstring.well_formed, hp, cstring.length] using hwf
    · simp [cstring.is_null, unique_ptr.to_bool, hp] at h
  | some a =>
    have ht : terminated_at mem a c.m_length := by
      simpa [cstring.well_formed, hp] using hwf
    refine ⟨fun h => ?_, fun _ => ⟨a, ?_, ht, ?_⟩⟩
    · simp [cstring.is_null, unique_ptr.to_bool, hp] at h
    · simp [cstring.c_str, unique_ptr.get, hp]
    · simpa [cstring.c_str, unique_ptr.get, hp, cstring.length]
        using (char_traits_length_ok_iff mem a c.m_length).2 ht

theorem state_invariant_reachable_witness :
    World.run example_mem World.empty
      [Op.construct (some 0) 7, Op.move_construct 0, Op.move_assign 1 1,
        Op.construct (some 4) 8, Op.move_assign 2 1]
      = some ⟨[some ⟨⟨none, 7⟩, 0⟩, some ⟨⟨none, 7⟩, 0⟩, some ⟨⟨some 0, 7⟩, 2⟩], [(8, 4)]⟩ ∧
    (⟨[some ⟨⟨none, 7⟩, 0⟩, some ⟨⟨none, 7⟩, 0⟩, some ⟨⟨some 0, 7⟩, 2⟩], [(8, 4)]⟩ :
      World Nat).objs[2]? = some (some ⟨⟨some 0, 7⟩, 2⟩) ∧
    ((⟨⟨some 0, 7⟩, 2⟩ : cstring Nat).is_null = true →
      (⟨⟨some 0, 7⟩, 2⟩ : cstring Nat).length = 0) ∧
    ((⟨⟨some 0, 7⟩, 2⟩ : cstring Nat).is_null = false →
      ∃ a, (⟨⟨some 0, 7⟩, 2⟩ : cstring Nat).c_str = some a ∧
        terminated_at example_mem a (⟨⟨some 0, 7⟩, 2⟩ : cstring Nat).length ∧
        char_traits_length example_mem (⟨⟨some 0, 7⟩, 2⟩ : cstring Nat).c_str =
          .ok (⟨⟨some 0, 7⟩, 2⟩ : cstring Nat).length) :=
  ⟨by decide, by decide,
    state_invariant_reachable example_mem
      [Op.construct (some 0) 7, Op.move_construct 0, Op.move_assign 1 1,
        Op.construct (some 4) 8, Op.move_assign 2 1]
      ⟨[some ⟨⟨none, 7⟩, 0⟩, some ⟨⟨none, 7⟩, 0⟩, some ⟨⟨some 0, 7⟩, 2⟩], [(8, 4)]⟩ 2
      ⟨⟨some 0, 7⟩, 2⟩ (by decide) (by decide)⟩

theorem bytes_getElem? (mem : Mem) (sv : string_view) (i : Nat) :
    (sv.bytes mem)[i]? = if i < sv.size then sv.byte_at mem i else none := by
  unfold string_view.bytes string_view.byte_at load
  cases sv.data with
  | none => simp
  | some a => simp only [List.getElem?_take, List.getElem?_drop]

theorem bytes_eq_iff (mem : Mem) (x y : string_view) (h : x.size = y.size) :
    x.bytes mem = y.bytes mem ↔ ∀ i, i < x.size → x.byte_at mem i = y.byte_at mem i := by
  constructor
  · intro hb i hi
    have h1 := bytes_getElem? mem x i
    have h2 := bytes_getElem? mem y i
    rw [hb] at h1
    rw [h2] at h1
    simpa [hi, ← h] using h1.symm
  · intro hall
    apply List.ext_getElem?
    intro i
    rw [bytes_getElem?, bytes_getElem?, ← h]
    by_cases hi : i < x.size
    · simp [hi, hall i hi]
    · simp [hi]

/-- C13. Equality is by bounded contents: a view and a bounded view compare
equal exactly when they have the same length and the same bytes below that
length. Pointers play no part (two views of "ab" at different addresses are
equal), and zero bytes are compared like any other byte (the view of length 3
over 'a', 0, 'b' built through the guarantee path differs from the bounded
view "a"). -/
theorem eq_iff_same_bounded_contents (mem : Mem) (v : cstring_view) (w : string_view) :
    (cstring_view.eq mem v w = true ↔ same_bounded_contents mem v.to_string_view w) ∧
    cstring_view.eq example_mem_twice (cstring_view.of_null_terminated 2 ⟨some 0, 2⟩)
      ⟨some 3, 2⟩ = true ∧
    cstring_view.eq example_mem (cstring_view.of_null_terminated 3 ⟨some 4, 3⟩)
      ⟨some 4, 1⟩ = false := by
  refine ⟨?_, by decide, by decide⟩
  unfold cstring_view.eq string_view.eq same_bounded_contents
  simp only [Bool.and_eq_true, beq_iff_eq]
  constructor
  · rintro ⟨hs, hb⟩
    exact ⟨hs, (bytes_eq_iff mem _ _ hs).1 hb⟩
  · rintro ⟨hs, hb⟩
    exact ⟨hs, (bytes_eq_iff mem _ _ hs).2 hb⟩

/-! ## Views always have a buffer -/

theorem view_step_c_str (mem : Mem) (vs vs1 : Views) (op : ViewOp)
    (h : ∀ v ∈ vs, v.c_str ≠ none) (hs : Views.step mem vs op = some vs1) :
    ∀ v ∈ vs1, v.c_str ≠ none := by
  intro v hv
  cases op with
  | default lit =>
    simp only [Views.step, Option.some.injEq] at hs
    subst hs
    simp only [List.mem_append, List.mem_singleton] at hv
    rcases hv with hv | hv
    · exact h v hv
    · subst hv
      simp [cstring_view.default, string_view.of_literal, cstring_view.c_str]
  | of_c_str s =>
    simp only [Views.step] at hs
    cases hc : cstring_view.of_c_str mem s with
    | error f => simp [hc] at hs
    | ok v0 =>
      simp only [hc, Option.some.injEq] at hs
      subst hs
      simp only [List.mem_append, List.mem_singleton] at hv
      rcases hv with hv | hv
      · exact h v hv
      · subst hv
        unfold cstring_view.of_c_str at hc
        cases hsv : string_view.of_c_str mem s with
        | error f => simp [hsv] at hc
        | ok m_sv =>
          simp only [hsv] at hc
          by_cases hd : m_sv.data = none
          · simp [hd] at hc
          · simp only [ne_eq, hd, not_false_eq_true, if_true, Except.ok.injEq] at hc
            subst hc
            exact hd
  | of_null_terminated lit sv =>
    simp only [Views.step, Option.some.injEq] at hs
    subst hs
    simp only [List.mem_append, List.mem_singleton] at hv
    rcases hv with hv | hv
    · exact h v hv
    · subst hv
      cases hd : sv.data <;>
        simp [cstring_view.of_null_terminated, hd, string_view.of_literal,
          cstring_view.c_str]
  | of_string str =>
    simp only [Views.step, Option.some.injEq] at hs
    subst hs
    simp only [List.mem_append, List.mem_singleton] at hv
    rcases hv with hv | hv
    · exact h v hv
    · subst hv
      simp [cstring_view.of_string, string.to_string_view, cstring_view.c_str]
  | copy_construct j =>
    simp only [Views.step, Views.copy_construct] at hs
    cases hy : vs[j]? with
    | none => simp [hy] at hs
    | some y =>
      simp only [hy, Option.some.injEq] at hs
      subst hs
      have hy0 := h y (List.getElem?_mem hy)
      simp only [List.mem_append, List.mem_singleton] at hv
      rcases hv with hv | hv
      · rcases List.mem_or_eq_of_mem_set hv with hv | hv
        · exact h v hv
        · subst hv; exact hy0
      · subst hv; exact hy0
  | move_construct j =>
    simp only [Views.step, Views.move_construct] at hs
    cases hy : vs[j]? with
    | none => simp [hy] at hs
    | some y =>
      simp only [hy, Option.some.injEq] at hs
      subst hs
      have hy0 := h y (List.getElem?_mem hy)
      simp only [List.mem_append, List.mem_singleton] at hv
      rcases hv with hv | hv
      · rcases List.mem_or_eq_of_mem_set hv with hv | hv
        · exact h v hv
        · subst hv; exact hy0
      · subst hv; exact hy0
  | copy_assign i j =>
    simp only [Views.step, Views.copy_assign] at hs
    cases hx : vs[i]? with
    | none => simp [hx] at hs
    | some x =>
      cases hy : vs[j]? with
      | none => simp [hx, hy] at hs
      | some y =>
        simp only [hx, hy, Option.some.injEq] at hs
        subst hs
        have hy0 := h y (List.getElem?_mem hy)
        rcases List.mem_or_eq_of_mem_set hv with hv | hv
        · rcases List.mem_or_eq_of_mem_set hv with hv | hv
          · exact h v hv
          · subst hv; exact hy0
        · subst hv; exact hy0
  | move_assign i j =>
    simp only [Views.step, Views.move_assign] at hs
    cases hx : vs[i]? with
    | none => simp [hx] at hs
    | some x =>
      cases hy : vs[j]? with
      | none => simp [hx, hy] at hs
      | some y =>
        simp only [hx, hy, Option.some.injEq] at hs
        subst hs
        have hy0 := h y (List.getElem?_mem hy)
        rcases List.mem_or_eq_of_mem_set hv with hv | hv
        · rcases List.mem_or_eq_of_mem_set hv with hv | hv
          · exact h v hv
          · subst hv; exact hy0
        · subst hv; exact hy0

theorem view_run_c_str (mem : Mem) (ops : List ViewOp) (vs vs1 : Views)
    (h : ∀ v ∈ vs, v.c_str ≠ none) (hrun : Views.run mem vs ops = some vs1) :
    ∀ v ∈ vs1, v.c_str ≠ none := by
  induction ops generalizing vs with
  | nil =>
    simp only [Views.run, Option.some.injEq] at hrun
    subst hrun
    exact h
  | cons op ops ih =>
    simp only [Views.run] at hrun
    cases hs : Views.step mem vs op with
    | none => simp [hs] at hrun
    | some vs2 =>
      simp only [hs, Option.some_bind] at hrun
      exact ih vs2 (view_step_c_str mem vs vs2 op h hs) hrun

/-- C12. A view never represents "no buffer": in every collection of views
reached by a run of constructions (default, bare pointer when the constructor
returns, guarantee path with a present or an absent bounded view,
`std::string`), copy and move constructions and copy and move assignments,
`c_str()` of every view is a non-null pointer. -/
theorem view_never_null (mem : Mem) (ops : List ViewOp) (vs : Views) (v : cstring_view)
    (hrun : Views.run mem [] ops = some vs) (hv : v ∈ vs) :
    ∃ a, v.c_str = some a := by
  have h := view_run_c_str mem ops [] vs (fun v hv => by simp at hv) hrun v hv
  cases hc : v.c_str with
  | none => exact absurd hc h
  | some a => exact ⟨a, rfl⟩

theorem view_never_null_witness :
    Views.run example_mem []
      [ViewOp.default 3, ViewOp.of_c_str (some 0), ViewOp.of_null_terminated 3 ⟨none, 0⟩,
        ViewOp.of_null_terminated 3 ⟨some 4, 3⟩, ViewOp.of_string ⟨4, 3⟩,
        ViewOp.copy_construct 1, ViewOp.move_assign 0 3, ViewOp.copy_assign 2 2]
      = some [⟨⟨some 4, 3⟩⟩, ⟨⟨some 0, 2⟩⟩, ⟨⟨some 3, 0⟩⟩, ⟨⟨some 4, 3⟩⟩, ⟨⟨some 4, 3⟩⟩,
          ⟨⟨some 0, 2⟩⟩] ∧
    (⟨⟨some 3, 0⟩⟩ : cstring_view) ∈
      ([⟨⟨some 4, 3⟩⟩, ⟨⟨some 0, 2⟩⟩, ⟨⟨some 3, 0⟩⟩, ⟨⟨some 4, 3⟩⟩, ⟨⟨some 4, 3⟩⟩,
          ⟨⟨some 0, 2⟩⟩] : Views) ∧
    ∃ a, (⟨⟨some 3, 0⟩⟩ : cstring_view).c_str = some a :=
  ⟨by decide, by decide,
    view_never_null example_mem
      [ViewOp.default 3, ViewOp.of_c_str (some 0), ViewOp.of_null_terminated 3 ⟨none, 0⟩,
        ViewOp.of_null_terminated 3 ⟨some 4, 3⟩, ViewOp.of_string ⟨4, 3⟩,
        ViewOp.copy_construct 1, ViewOp.move_assign 0 3, ViewOp.copy_assign 2 2]
      [⟨⟨some 4, 3⟩⟩, ⟨⟨some 0, 2⟩⟩, ⟨⟨some 3, 0⟩⟩, ⟨⟨some 4, 3⟩⟩, ⟨⟨some 4, 3⟩⟩,
          ⟨⟨some 0, 2⟩⟩]
      ⟨⟨some 3, 0⟩⟩ (by decide) (by decide)⟩

/-! ## Copy and move of views -/

/-- C19. Copy and move of a view are the same shallow copy: for existing views
`u` at `dst` and `v` at `src`, copy construction and move construction from
`src` create a view with the data pointer and length of `v`; copy assignment
and move assignment to `dst` leave at `dst` the value `v`; move assignment of
`src` to itself leaves the collection as it was; and in each case the source
still holds `v`. The copy and the move constructor are the same function. -/
theorem view_copy_is_shallow (vs : Views) (dst src : Nat) (u v : cstring_view)
    (hd : vs[dst]? = some u) (hs : vs[src]? = some v) :
    (∃ vs1 x, vs.copy_construct src = some vs1 ∧ vs1[vs.length]? = some x ∧
      x.c_str = v.c_str ∧ x.length = v.length ∧ vs1[src]? = some v) ∧
    (∃ vs1 x, vs.move_construct src = some vs1 ∧ vs1[vs.length]? = some x ∧
      x.c_str = v.c_str ∧ x.length = v.length ∧ vs1[src]? = some v) ∧
    (∃ vs1 x, vs.copy_assign dst src = some vs1 ∧ vs1[dst]? = some x ∧
      x.c_str = v.c_str ∧ x.length = v.length ∧ vs1[src]? = some v) ∧
    (∃ vs1 x, vs.move_assign dst src = some vs1 ∧ vs1[dst]? = some x ∧
      x.c_str = v.c_str ∧ x.length = v.length ∧ vs1[src]? = some v) ∧
    (∃ vs1, vs.move_assign src src = some vs1 ∧ vs1[src]? = some v ∧ vs1 = vs) ∧
    cstring_view.move_ctor v = cstring_view.copy_ctor v := by
  have hdl := getElem?_lt_of_eq_some hd
  have hsl := getElem?_lt_of_eq_some hs
  have hset : vs.set src v = vs := by
    apply List.ext_getElem?
    intro k
    by_cases hk : src = k
    · subst hk; simp [List.getElem?_set, hsl, hs]
    · simp [List.getElem?_set, hk]
  have hassign : ((vs.set src v).set dst v)[dst]? = some v ∧
      ((vs.set src v).set dst v)[src]? = some v := by
    rw [hset]
    constructor
    · simp [List.getElem?_set, hdl]
    · by_cases hk : dst = src
      · subst hk; simp [List.getElem?_set, hdl]
      · simp [List.getElem?_set, hk, hs]
  refine ⟨⟨vs.set src v ++ [v], v, ?_, ?_, rfl, rfl, ?_⟩,
    ⟨vs.set src v ++ [v], v, ?_, ?_, rfl, rfl, ?_⟩,
    ⟨(vs.set src v).set dst v, v, ?_, hassign.1, rfl, rfl, hassign.2⟩,
    ⟨(vs.set src v).set dst v, v, ?_, hassign.1, rfl, rfl, hassign.2⟩,
    ⟨(vs.set src v).set src v, ?_, ?_, ?_⟩, rfl⟩
  · simp [Views.copy_construct, hs, cstring_view.copy_ctor, string_view.copy_ctor]
  · rw [hset]; exact List.getElem?_concat_length vs v
  · rw [hset, List.getElem?_append_left hsl]; exact hs
  · simp [Views.move_construct, hs, cstring_view.move_ctor, string_view.move_ctor]
  · rw [hset]; exact List.getElem?_concat_length vs v
  · rw [hset, List.getElem?_append_left hsl]; exact hs
  · simp [Views.copy_assign, hd, hs, string_view.copy_ctor]
  · simp [Views.move_assign, hd, hs, string_view.move_ctor]
  · simp [Views.move_assign, hs, string_view.move_ctor]
  · rw [hset, hset]; exact hs
  · rw [hset, hset]

theorem view_copy_is_shallow_witness :
    example_views[1]? = some ⟨⟨some 3, 0⟩⟩ ∧ example_views[0]? = some ⟨⟨some 0, 2⟩⟩ ∧
    (∃ vs1 x, example_views.copy_construct 0 = some vs1 ∧
      vs1[example_views.length]? = some x ∧
      x.c_str = (⟨⟨some 0, 2⟩⟩ : cstring_view).c_str ∧
      x.length = (⟨⟨some 0, 2⟩⟩ : cstring_view).length ∧
      vs1[0]? = some ⟨⟨some 0, 2⟩⟩) ∧
    (∃ vs1 x, example_views.move_construct 0 = some vs1 ∧
      vs1[example_views.length]? = some x ∧
      x.c_str = (⟨⟨some 0, 2⟩⟩ : cstring_view).c_str ∧
      x.length = (⟨⟨some 0, 2⟩⟩ : cstring_view).length ∧
      vs1[0]? = some ⟨⟨some 0, 2⟩⟩) ∧
    (∃ vs1 x, example_views.copy_assign 1 0 = some vs1 ∧ vs1[1]? = some x ∧
      x.c_str = (⟨⟨some 0, 2⟩⟩ : cstring_view).c_str ∧
      x.length = (⟨⟨some 0, 2⟩⟩ : cstring_view).length ∧
      vs1[0]? = some ⟨⟨some 0, 2⟩⟩) ∧
    (∃ vs1 x, example_views.move_assign 1 0 = some vs1 ∧ vs1[1]? = some x ∧
      x.c_str = (⟨⟨some 0, 2⟩⟩ : cstring_view).c_str ∧
      x.length = (⟨⟨some 0, 2⟩⟩ : cstring_view).length ∧
      vs1[0]? = some ⟨⟨some 0, 2⟩⟩) ∧
    (∃ vs1, example_views.move_assign 0 0 = some vs1 ∧ vs1[0]? = some ⟨⟨some 0, 2⟩⟩ ∧
      vs1 = example_views) ∧
    cstring_view.move_ctor ⟨⟨some 0, 2⟩⟩ = cstring_view.copy_ctor ⟨⟨some 0, 2⟩⟩ :=
  ⟨by decide, by decide,
    view_copy_is_shallow example_views 1 0 ⟨⟨some 3, 0⟩⟩ ⟨⟨some 0, 2⟩⟩ (by decide)
      (by decide)⟩

/-! ## Exclusive ownership -/

theorem countP_le_one_unique {α : Type} (p : α → Bool) (l : List α)
    (h : l.countP p ≤ 1) (i j : Nat) (x y : α) (hi : l[i]? = some x)
    (hj : l[j]? = some y) (hx : p x = true) (hy : p y = true) : i = j := by
  induction l generalizing i j with
  | nil => simp at hi
  | cons z zs ih =>
    simp only [List.countP_cons] at h
    cases i with
    | zero =>
      cases j with
      | zero => rfl
      | succ k =>
        simp only [List.getElem?_cons_zero, Option.some.injEq] at hi
        simp only [List.getElem?_cons_succ] at hj
        subst hi
        have hpos : 0 < zs.countP p :=
          List.countP_pos_iff.2 ⟨y, List.getElem?_mem hj, hy⟩
        simp only [hx, if_true] at h
        omega
    | succ k =>
      cases j with
      | zero =>
        simp only [List.getElem?_cons_zero, Option.some.injEq] at hj
        simp only [List.getElem?_cons_succ] at hi
        subst hj
        have hpos : 0 < zs.countP p :=
          List.countP_pos_iff.2 ⟨x, List.getElem?_mem hi, hx⟩
        simp only [hy, if_true] at h
        omega
      | succ m =>
        simp only [List.getElem?_cons_succ] at hi hj
        have := ih (by omega) k m hi hj
        omega

/-- C15. Exclusive ownership: in a world reached by a run of adoptions, move
constructions, move assignments and destructions in which the buffer at `a`
is adopted at most once, no two live objects hold `a`, and once a deleter has
been called on `a` no live object holds it. -/
theorem exclusive_ownership {δ : Type} (mem : Mem) (ops : List (Op δ)) (w : World δ)
    (a : Nat) (hrun : World.run mem World.empty ops = some w)
    (hadopt : adoptions ops a ≤ 1) :
    (∀ (i j : Nat) (c1 c2 : cstring δ), w.objs[i]? = some (some c1) →
      w.objs[j]? = some (some c2) → c1.c_str = some a → c2.c_str = some a → i = j) ∧
    (0 < w.released a → ∀ (i : Nat) (c : cstring δ), w.objs[i]? = some (some c) →
      c.c_str ≠ some a) := by
  have hb := run_balance mem ops World.empty w a hrun
  have h0 : (World.empty : World δ).released a + (World.empty : World δ).held a = 0 := by
    simp [World.empty, World.released, World.held]
  constructor
  · intro i j c1 c2 h1 h2 hc1 hc2
    have hheld : w.objs.countP (fun o => World.holds o a) ≤ 1 := by
      have : w.held a ≤ 1 := by omega
      exact this
    exact countP_le_one_unique _ w.objs hheld i j (some c1) (some c2) h1 h2
      (by simpa [World.holds, cstring.c_str, unique_ptr.get] using hc1)
      (by simpa [World.holds, cstring.c_str, unique_ptr.get] using hc2)
  · intro hrel i c hc hca
    have hz : w.held a = 0 := by omega
    unfold World.held at hz
    rw [List.countP_eq_zero] at hz
    have := hz (some c) (List.getElem?_mem hc)
    simp [World.holds, cstring.c_str, unique_ptr.get] at this hca
    exact this hca

theorem exclusive_ownership_witness :
    World.run example_mem World.empty
      [Op.construct (some 0) 7, Op.construct (some 4) 8, Op.move_construct 0,
        Op.move_assign 0 1, Op.destroy 2]
      = some ⟨[some ⟨⟨some 4, 8⟩, 1⟩, some ⟨⟨none, 8⟩, 0⟩, none], [(7, 0)]⟩ ∧
    adoptions [Op.construct (some 0) 7, Op.construct (some 4) 8, Op.move_construct 0,
        Op.move_assign 0 1, Op.destroy 2] 0 ≤ 1 ∧
    (∀ (i j : Nat) (c1 c2 : cstring Nat),
      (⟨[some ⟨⟨some 4, 8⟩, 1⟩, some ⟨⟨none, 8⟩, 0⟩, none], [(7, 0)]⟩ : World Nat).objs[i]?
        = some (some c1) →
      (⟨[some ⟨⟨some 4, 8⟩, 1⟩, some ⟨⟨none, 8⟩, 0⟩, none], [(7, 0)]⟩ : World Nat).objs[j]?
        = some (some c2) →
      c1.c_str = some 0 → c2.c_str = some 0 → i = j) ∧
    (0 < (⟨[some ⟨⟨some 4, 8⟩, 1⟩, some ⟨⟨none, 8⟩, 0⟩, none], [(7, 0)]⟩ :
        World Nat).released 0 →
      ∀ (i : Nat) (c : cstring Nat),
        (⟨[some ⟨⟨some 4, 8⟩, 1⟩, some ⟨⟨none, 8⟩, 0⟩, none], [(7, 0)]⟩ : World Nat).objs[i]?
          = some (some c) → c.c_str ≠ some 0) :=
  ⟨by decide, by decide,
    exclusive_ownership example_mem
      [Op.construct (some 0) 7, Op.construct (some 4) 8, Op.move_construct 0,
        Op.move_assign 0 1, Op.destroy 2]
      ⟨[some ⟨⟨some 4, 8⟩, 1⟩, some ⟨⟨none, 8⟩, 0⟩, none], [(7, 0)]⟩ 0 (by decide)
      (by decide)⟩

/-! ## The deleter travels with the buffer -/

theorem move_assign_body_fst_m_str {δ : Type} (x y : cstring δ) (log : Log δ) :
    (cstring.move_assign_body x y log).1.m_str = ⟨y.m_str.ptr, y.m_str.deleter⟩ := by
  cases hp : x.m_str.ptr <;>
    simp [cstring.move_assign_body, unique_ptr.move_assign, unique_ptr.reset,
      unique_ptr.release, hp]

theorem move_assign_body_snd_ptr {δ : Type} (x y : cstring δ) (log : Log δ) :
    (cstring.move_assign_body x y log).2.1.m_str.ptr = none := by
  simp [cstring.move_assign_body, unique_ptr.move_assign, unique_ptr.release]

theorem move_assign_body_log {δ : Type} (x y : cstring δ) (log : Log δ) :
    (cstring.move_assign_body x y log).2.2 = log ++ (match x.m_str.ptr with
      | some b => [(x.m_str.deleter, b)]
      | none => []) := by
  cases hp : x.m_str.ptr <;>
    simp [cstring.move_assign_body, unique_ptr.move_assign, unique_ptr.reset,
      unique_ptr.release, hp, invoke]

theorem dtor_log {δ : Type} (x : cstring δ) (log : Log δ) :
    x.dtor log = log ++ (match x.m_str.ptr with
      | some b => [(x.m_str.deleter, b)]
      | none => []) := by
  cases hp : x.m_str.ptr <;> simp [cstring.dtor, unique_ptr.dtor, hp, invoke]

theorem mem_release_log {δ : Type} {all : List (Op δ)} {w : World δ} {x : cstring δ}
    (hw : w.deleters_match all) (hx : some x ∈ w.objs) {d : δ} {a : Nat}
    (h : (d, a) ∈ w.log ++ (match x.m_str.ptr with
      | some b => [(x.m_str.deleter, b)]
      | none => [])) : adopted_with all d a := by
  rw [List.mem_append] at h
  rcases h with h | h
  · exact hw.2 d a h
  · cases hp : x.m_str.ptr with
    | none => simp [hp] at h
    | some b =>
      simp only [hp, List.mem_singleton, Prod.mk.injEq] at h
      rw [h.1, h.2]
      exact hw.1 x b hx hp

theorem step_deleters_match {δ : Type} (mem : Mem) (all : List (Op δ)) (w w1 : World δ)
    (op : Op δ) (hop : op ∈ all) (hw : w.deleters_match all)
    (hs : World.step mem w op = some w1) : w1.deleters_match all := by
  cases op with
  | construct s d =>
    simp only [World.step, World.construct] at hs
    cases hk : cstring.ctor_deleter mem s d with
    | error f => simp [hk] at hs
    | ok c0 =>
      simp only [hk, Option.some.injEq] at hs
      subst hs
      refine ⟨?_, hw.2⟩
      intro c a hc hp
      simp only [List.mem_append, List.mem_singleton, Option.some.injEq] at hc
      rcases hc with hc | hc
      · exact hw.1 c a hc hp
      · subst hc
        rw [ctor_deleter_m_str hk] at hp ⊢
        simp only at hp
        subst hp
        exact hop
  | move_construct j =>
    simp only [World.step, World.move_construct] at hs
    cases hy : w.objs[j]? with
    | none => simp [hy] at hs
    | some o =>
      cases o with
      | none => simp [hy] at hs
      | some y =>
        simp only [hy, Option.some.injEq] at hs
        subst hs
        have hy0 := List.getElem?_mem hy
        refine ⟨?_, hw.2⟩
        intro c a hc hp
        simp only [List.mem_append, List.mem_singleton, Option.some.injEq] at hc
        rcases hc with hc | hc
        · rcases List.mem_or_eq_of_mem_set hc with hc | hc
          · exact hw.1 c a hc hp
          · simp only [Option.some.injEq] at hc
            subst hc
            simp [cstring.move_ctor, unique_ptr.move_ctor, unique_ptr.release] at hp
        · subst hc
          exact hw.1 y a hy0 hp
  | move_assign i j =>
    simp only [World.step, World.move_assign] at hs
    cases hx : w.objs[i]? with
    | none => simp [hx] at hs
    | some ox =>
      cases ox with
      | none => simp [hx] at hs
      | some x =>
        cases hy : w.objs[j]? with
        | none => simp [hx, hy] at hs
        | some oy =>
          cases oy with
          | none => simp [hx, hy] at hs
          | some y =>
            by_cases hij : i = j
            · simp only [hx, hy, hij, ne_eq, not_true_eq_false, if_false,
                Option.some.injEq] at hs
              subst hs
              exact hw
            · simp only [hx, hy, hij, ne_eq, not_false_eq_true, if_true,
                Option.some.injEq] at hs
              subst hs
              have hx0 := List.getElem?_mem hx
              have hy0 := List.getElem?_mem hy
              constructor
              · intro c a hc hp
                rcases List.mem_or_eq_of_mem_set hc with hc | hc
                · rcases List.mem_or_eq_of_mem_set hc with hc | hc
                  · exact hw.1 c a hc hp
                  · simp only [Option.some.injEq] at hc
                    subst hc
                    rw [move_assign_body_fst_m_str] at hp ⊢
                    exact hw.1 y a hy0 hp
                · simp only [Option.some.injEq] at hc
                  subst hc
                  rw [move_assign_body_snd_ptr] at hp
                  cases hp
              · intro d a hda
                simp only [move_assign_body_log] at hda
                exact mem_release_log hw hx0 hda
  | destroy i =>
    simp only [World.step, World.destroy] at hs
    cases hx : w.objs[i]? with
    | none => simp [hx] at hs
    | some ox =>
      cases ox with
      | none => simp [hx] at hs
      | some x =>
        simp only [hx, Option.some.injEq] at hs
        subst hs
        have hx0 := List.getElem?_mem hx
        constructor
        · intro c a hc hp
          rcases List.mem_or_eq_of_mem_set hc with hc | hc
          · exact hw.1 c a hc hp
          · cases hc
        · intro d a hda
          simp only [dtor_log] at hda
          exact mem_release_log hw hx0 hda

theorem run_deleters_match {δ : Type} (mem : Mem) (all ops : List (Op δ)) (w w1 : World δ)
    (hsub : ∀ op ∈ ops, op ∈ all) (hw : w.deleters_match all)
    (hrun : World.run mem w ops = some w1) : w1.deleters_match all := by
  induction ops generalizing w with
  | nil =>
    simp only [World.run, Option.some.injEq] at hrun
    subst hrun
    exact hw
  | cons op ops ih =>
    simp only [World.run] at hrun
    cases hs : World.step mem w op with
    | none => simp [hs] at hrun
    | some w2 =>
      simp only [hs, Option.some_bind] at hrun
      exact ih w2 (fun o ho => hsub o (List.mem_cons_of_mem op ho))
        (step_deleters_match mem all w w2 op (hsub op (List.mem_cons_self op ops)) hw hs)
        hrun

/-- C20. The release strategy travels with the buffer: in a world reached by a
run of adoptions, move constructions, move assignments and destructions,
every deleter call on a buffer was made by a deleter value that buffer was
adopted with, and every live owner of a buffer holds such a deleter. In
particular the body of `D = move(S)` calls the old deleter of `D` on the
buffer `D` owned, stores the deleter of `S` in `D`, and the destructor of `D`
afterwards calls the deleter of `S` on the buffer taken from `S`. -/
theorem deleter_travels_with_buffer {δ : Type} (mem : Mem) (ops : List (Op δ))
    (w : World δ) (hrun : World.run mem World.empty ops = some w) :
    (∀ (d : δ) (a : Nat), (d, a) ∈ w.log → adopted_with ops d a) ∧
    (∀ (i : Nat) (c : cstring δ) (a : Nat), w.objs[i]? = some (some c) →
      c.c_str = some a → adopted_with ops c.m_str.deleter a) ∧
    (∀ (D S : cstring δ) (log log1 : Log δ),
      (cstring.move_assign_body D S log).2.2 = log ++ (match D.c_str with
        | some a => [(D.m_str.deleter, a)]
        | none => []) ∧
      (cstring.move_assign_body D S log).1.m_str.deleter = S.m_str.deleter ∧
      (cstring.move_assign_body D S log).1.dtor log1 = log1 ++ (match S.c_str with
        | some a => [(S.m_str.deleter, a)]
        | none => [])) := by
  have hm := run_deleters_match mem ops ops World.empty w (fun _ h => h)
    ⟨fun c a hc => by simp [World.empty] at hc, fun d a hd => by simp [World.empty] at hd⟩
    hrun
  refine ⟨hm.2, ?_, ?_⟩
  · intro i c a hc hca
    exact hm.1 c a (List.getElem?_mem hc) hca
  · intro D S log log1
    refine ⟨move_assign_body_log D S log, ?_, ?_⟩
    · rw [move_assign_body_fst_m_str]
    · rw [dtor_log, move_assign_body_fst_m_str]
      rfl

theorem deleter_travels_with_buffer_witness :
    World.run example_mem World.empty
      [Op.construct (some 0) 7, Op.construct (some 4) 8, Op.move_assign 0 1, Op.destroy 0,
        Op.destroy 1]
      = some ⟨[none, none], [(7, 0), (8, 4)]⟩ ∧
    (∀ (d : Nat) (a : Nat), (d, a) ∈ (⟨[none, none], [(7, 0), (8, 4)]⟩ : World Nat).log →
      adopted_with [Op.construct (some 0) 7, Op.construct (some 4) 8, Op.move_assign 0 1,
        Op.destroy 0, Op.destroy 1] d a) ∧
    (∀ (i : Nat) (c : cstring Nat) (a : Nat),
      (⟨[none, none], [(7, 0), (8, 4)]⟩ : World Nat).objs[i]? = some (some c) →
      c.c_str = some a →
      adopted_with [Op.construct (some 0) 7, Op.construct (some 4) 8, Op.move_assign 0 1,
        Op.destroy 0, Op.destroy 1] c.m_str.deleter a) ∧
    (∀ (D S : cstring Nat) (log log1 : Log Nat),
      (cstring.move_assign_body D S log).2.2 = log ++ (match D.c_str with
        | some a => [(D.m_str.deleter, a)]
        | none => []) ∧
      (cstring.move_assign_body D S log).1.m_str.deleter = S.m_str.deleter ∧
      (cstring.move_assign_body D S log).1.dtor log1 = log1 ++ (match S.c_str with
        | some a => [(S.m_str.deleter, a)]
        | none => [])) :=
  ⟨by decide,
    deleter_travels_with_buffer example_mem
      [Op.construct (some 0) 7, Op.construct (some 4) 8, Op.move_assign 0 1, Op.destroy 0,
        Op.destroy 1] ⟨[none, none], [(7, 0), (8, 4)]⟩ (by decide)⟩

end tuli
